import Mathlib

/-!
# A two-layer feed-forward network (`net.hpp`)

Shallow embedding of `net.hpp`: the fixed-size buffer `Array2D`, the policies
`Squared_Error` and `Logistic`, the network state `FeedForward_Network`, and the
operations `calculate_activation`, `backprop`, `train` (both overloads),
`randomize` and `predict`.

Conventions of the embedding.

* The scalar type `float` is a type parameter `F`.  The network code only uses
  `0`, `+` and `*` on it, and no algebraic law is assumed of them, so every
  structural theorem holds for IEEE arithmetic as well as for the reals.  Two
  instances are given: the reals, and `Binary32`, which rounds the exact result
  of every operation to IEEE binary32.
* `std::array<T, n>` is a total map `Fin n → T`.
* A failure (`std::out_of_range` thrown by `std::array::at`, or a read through a
  pointer outside the buffer it points into) is the value `none`.
* A `for (int i = 0; i < n; ++i)` loop is a left fold over `List.finRange n`.
* The random engine and the normal distribution of `<random>` are library code;
  `randomize` takes them as a parameter, `RandomSource`.
-/

namespace Net

/-! ## Fixed-size buffers -/

/-- The type `std::array<T, n>`. -/
abbrev StdArray (T : Type) (n : Nat) : Type := Fin n → T

/-- Checked access `std::array<T, n>::at` applied to an `int`: the slot that is
referenced, or `none` when `std::out_of_range` is thrown.  The argument of `at`
is a `size_type`; a negative `int` converts to a value above every size an
array can have, so on the mathematical integer the test is `0 ≤ i < n`. -/
def std_array_at (n : Nat) (i : Int) : Option (Fin n) :=
  if h : 0 ≤ i ∧ i < (n : Int) then some ⟨i.toNat, by omega⟩ else none

/-- The type `struct Array2D`: one member, `std::array<T, x_size * y_size> data`. -/
structure Array2D (T : Type) (x_size y_size : Nat) where
  data : StdArray T (x_size * y_size)

/-- A pointer (or `std::array` iterator) into a buffer of `len` elements, `off`
elements past its start.  The buffer is held by value: the embedding assumes
that it does not alias storage written while the pointer is in use, which holds
at every call site of `net.hpp` (the arguments are passed by value). -/
structure Ptr (T : Type) where
  len : Nat
  mem : Fin len → T
  off : Int

section buffers

variable {T : Type} {x_size y_size : Nat}

/-- Read `p[i]`; `none` when the element lies outside the buffer. -/
def Ptr.deref (p : Ptr T) (i : Int) : Option T :=
  if h : 0 ≤ p.off + i ∧ p.off + i < (p.len : Int) then
    some (p.mem ⟨(p.off + i).toNat, by omega⟩)
  else none

/-- The member function `std::array::data()`. -/
def StdArray.data {n : Nat} (a : StdArray T n) : Ptr T := ⟨n, a, 0⟩

/-- The value `z` is representable in the 32-bit type `int`. -/
def int_range (z : Int) : Prop := -2147483648 ≤ z ∧ z ≤ 2147483647

instance (z : Int) : Decidable (int_range z) := by
  unfold int_range; infer_instance

/-- The accessor `T& operator()(int x, int y) { return data.at(y + y_size*x); }`: the slot of
`data` that the returned reference designates.  The index `y + y_size*x` is
computed here on the mathematical integers; this is what the `int` arithmetic of
the source computes as long as `y_size*x` and `y + y_size*x` stay inside
`int_range` (signed overflow is undefined behaviour in C++). -/
def Array2D.operator_call (_a : Array2D T x_size y_size) (x y : Int) :
    Option (Fin (x_size * y_size)) :=
  std_array_at (x_size * y_size) (y + (y_size : Int) * x)

/-- The member function `row(int x) { return data.begin() + x*y_size; }`. -/
def Array2D.row (a : Array2D T x_size y_size) (x : Int) : Ptr T :=
  ⟨x_size * y_size, a.data, x * (y_size : Int)⟩

/-- Rvalue use of `a(x, y)`. -/
def Array2D.read (a : Array2D T x_size y_size) (x y : Int) : Option T :=
  (a.operator_call x y).map a.data

/-- The statement `a(x, y) += v`. -/
def Array2D.add_assign [Add T] (a : Array2D T x_size y_size) (x y : Int) (v : T) :
    Option (Array2D T x_size y_size) :=
  (a.operator_call x y).map fun s => ⟨Function.update a.data s (a.data s + v)⟩

/-- The pair `(x, y)` is out of range for dimensions `X`, `Y`. -/
def OutOfRange (X Y : Nat) (x y : Int) : Prop :=
  x < 0 ∨ (X : Int) ≤ x ∨ y < 0 ∨ (Y : Int) ≤ y

instance (X Y : Nat) (x y : Int) : Decidable (OutOfRange X Y x y) := by
  unfold OutOfRange; infer_instance

/-- The linear slot `x * y_size + y` of an in-range pair. -/
def Array2D.slot (x : Fin x_size) (y : Fin y_size) : Fin (x_size * y_size) :=
  ⟨x.val * y_size + y.val, by
    have h1 : x.val * y_size + y.val < (x.val + 1) * y_size := by
      rw [Nat.add_mul, Nat.one_mul]; exact Nat.add_lt_add_left y.isLt _
    exact lt_of_lt_of_le h1 (Nat.mul_le_mul_right _ x.isLt)⟩

/-- The value of `a(x, y)` at an in-range pair. -/
def Array2D.get (a : Array2D T x_size y_size) (x : Fin x_size) (y : Fin y_size) : T :=
  a.data (Array2D.slot x y)

/-- The `y_size` values of row `x`, as a `std::array`. -/
def Array2D.row_values (a : Array2D T x_size y_size) (x : Fin x_size) : StdArray T y_size :=
  fun y => a.get x y

/-- The two nested weight-update loops of `backprop` on one matrix, once the
checked accesses are known to succeed: for each `k`, for each `i`,
`a(k, i) += c k i`. -/
def updated_weights [Add T] (a : Array2D T x_size y_size) (c : Fin x_size → Fin y_size → T) :
    Array2D T x_size y_size :=
  (List.finRange x_size).foldl (fun a k =>
    (List.finRange y_size).foldl (fun a i =>
      ⟨Function.update a.data (Array2D.slot k i) (a.get k i + c k i)⟩) a) a

/-- The slots of `data` that `a(x, y)` designates for some in-range pair. -/
def Array2D.addressable (a : Array2D T x_size y_size) : Finset (Fin (x_size * y_size)) :=
  Finset.univ.filter fun s =>
    ∃ x : Fin x_size, ∃ y : Fin y_size, a.operator_call x.val y.val = some s

end buffers

/-! ## Policies -/

/-- The capability of an activation policy type: two static functions. -/
structure ActivationPolicy (F : Type) where
  activation : F → F
  activation_dir : F → F

/-- The capability of an error policy type: two static functions. -/
structure ErrorPolicy (F : Type) where
  error : F → F → F
  error_dir : F → F → F

/-- The function `exp` of the scalar type. -/
class HasExp (F : Type) where
  exp : F → F

/-- The policy `struct Squared_Error`: `error` is `1/2.0f * (target - result) * (target - result)`,
`error_dir` is `target - result`. -/
def Squared_Error (F : Type) [One F] [OfNat F 2] [Div F] [Sub F] [Mul F] : ErrorPolicy F where
  error := fun target result => 1 / 2 * (target - result) * (target - result)
  error_dir := fun target result => target - result

/-- The policy `struct Logistic`: `activation` is `1 / (1 + exp(-k))`, `activation_dir` is
`k * (1 - k)`. -/
def Logistic (F : Type) [One F] [Add F] [Sub F] [Mul F] [Div F] [Neg F] [HasExp F] :
    ActivationPolicy F where
  activation := fun k => 1 / (1 + HasExp.exp (-k))
  activation_dir := fun k => k * (1 - k)

/-! ## Network state -/

/-- The type `struct FeedForward_Network`; the two policy template arguments are passed
to the operations instead. -/
structure FeedForward_Network (F : Type) (input_size hidden_size output_size : Nat) where
  learning_rate : F
  weights_inputToHidden : Array2D F input_size hidden_size
  weights_hiddenToOutput : Array2D F hidden_size output_size
  activation_input : StdArray F input_size
  activation_hidden : StdArray F hidden_size
  activation_output : StdArray F output_size

section network

variable {F : Type} [Zero F] [Add F] [Mul F]
variable {input_size hidden_size output_size : Nat}

/-! ## Forward pass -/

/-- The overload `calculate_activation(network, float* input)`. -/
def calculate_activation_ptr (activation : ActivationPolicy F)
    (network : FeedForward_Network F input_size hidden_size output_size) (input : Ptr F) :
    Option (FeedForward_Network F input_size hidden_size output_size) := do
  let network ← (List.finRange input_size).foldlM (fun network (i : Fin input_size) => do
    let v ← input.deref i.val
    pure { network with activation_input := Function.update network.activation_input i v })
    network
  let network ← (List.finRange hidden_size).foldlM (fun network (i : Fin hidden_size) => do
    let temp ← (List.finRange input_size).foldlM (fun temp (j : Fin input_size) => do
      let v ← input.deref j.val
      let w ← network.weights_inputToHidden.read j.val i.val
      pure (temp + v * w)) (0 : F)
    pure { network with
      activation_hidden := Function.update network.activation_hidden i
        (activation.activation temp) })
    network
  (List.finRange output_size).foldlM (fun network (i : Fin output_size) => do
    let temp ← (List.finRange hidden_size).foldlM (fun temp (j : Fin hidden_size) => do
      let w ← network.weights_hiddenToOutput.read j.val i.val
      pure (temp + network.activation_hidden j * w)) (0 : F)
    pure { network with
      activation_output := Function.update network.activation_output i
        (activation.activation temp) })
    network

/-- The overload `calculate_activation(network, std::array<float, input_size> input)`. -/
def calculate_activation (activation : ActivationPolicy F)
    (network : FeedForward_Network F input_size hidden_size output_size)
    (input : StdArray F input_size) :
    Option (FeedForward_Network F input_size hidden_size output_size) :=
  calculate_activation_ptr activation network (StdArray.data input)

/-- The function `predict`: the network after the call, and the returned copy of
`activation_output`. -/
def predict (activation : ActivationPolicy F)
    (network : FeedForward_Network F input_size hidden_size output_size)
    (input : StdArray F input_size) :
    Option (FeedForward_Network F input_size hidden_size output_size × StdArray F output_size) := do
  let network ← calculate_activation activation network input
  pure (network, network.activation_output)

/-! ## Backpropagation -/

/-- The overload `backprop(network, float* target)`.  The local arrays `output_deltas` and
`hidden_deltas` are indeterminate when declared; every entry is written before
it is read, and the embedding starts them at `0`. -/
def backprop_ptr (activation : ActivationPolicy F) (error : ErrorPolicy F)
    (network : FeedForward_Network F input_size hidden_size output_size) (target : Ptr F) :
    Option (FeedForward_Network F input_size hidden_size output_size) := do
  let output_deltas ← (List.finRange output_size).foldlM (fun output_deltas (i : Fin output_size) => do
    let t ← target.deref i.val
    pure (Function.update output_deltas i
      (error.error_dir t (network.activation_output i)
        * activation.activation_dir (network.activation_output i))))
    (fun _ => (0 : F))
  let hidden_deltas ← (List.finRange hidden_size).foldlM (fun hidden_deltas (i : Fin hidden_size) => do
    let error_sum ← (List.finRange output_size).foldlM (fun error_sum (k : Fin output_size) => do
      let w ← network.weights_hiddenToOutput.read i.val k.val
      pure (error_sum + output_deltas k * w)) (0 : F)
    pure (Function.update hidden_deltas i
      (error_sum * activation.activation_dir (network.activation_hidden i))))
    (fun _ => (0 : F))
  let network ← (List.finRange hidden_size).foldlM (fun network (k : Fin hidden_size) =>
    (List.finRange output_size).foldlM (fun network (i : Fin output_size) => do
      let w ← network.weights_hiddenToOutput.add_assign k.val i.val
        (network.learning_rate * output_deltas i * network.activation_hidden k)
      pure { network with weights_hiddenToOutput := w }) network)
    network
  (List.finRange input_size).foldlM (fun network (k : Fin input_size) =>
    (List.finRange hidden_size).foldlM (fun network (i : Fin hidden_size) => do
      let w ← network.weights_inputToHidden.add_assign k.val i.val
        (network.learning_rate * hidden_deltas i * network.activation_input k)
      pure { network with weights_inputToHidden := w }) network)
    network

/-- The overload `backprop(network, std::array<float, output_size> target)`. -/
def backprop (activation : ActivationPolicy F) (error : ErrorPolicy F)
    (network : FeedForward_Network F input_size hidden_size output_size)
    (target : StdArray F output_size) :
    Option (FeedForward_Network F input_size hidden_size output_size) :=
  backprop_ptr activation error network (StdArray.data target)

/-! ## Training -/

/-- The single-example overload `train(network, input, target)`. -/
def train (activation : ActivationPolicy F) (error : ErrorPolicy F)
    (network : FeedForward_Network F input_size hidden_size output_size)
    (input : StdArray F input_size) (target : StdArray F output_size) :
    Option (FeedForward_Network F input_size hidden_size output_size) := do
  let network ← calculate_activation activation network input
  backprop activation error network target

/-- The batch overload `train(network, inputs, targets)` over `point_count`
stacked examples. -/
def train_batch {point_count : Nat} (activation : ActivationPolicy F) (error : ErrorPolicy F)
    (network : FeedForward_Network F input_size hidden_size output_size)
    (inputs : Array2D F point_count input_size) (targets : Array2D F point_count output_size) :
    Option (FeedForward_Network F input_size hidden_size output_size) :=
  (List.finRange point_count).foldlM (fun network (i : Fin point_count) => do
    let network ← calculate_activation_ptr activation network (inputs.row i.val)
    backprop_ptr activation error network (targets.row i.val)) network

/-- The loop the batch overload is compared with: the single-example `train`
called once per example, on row `i` of `inputs` and row `i` of `targets`, for
`i = 0, 1, ..., point_count - 1` in that order. -/
def train_each {point_count : Nat} (activation : ActivationPolicy F) (error : ErrorPolicy F)
    (network : FeedForward_Network F input_size hidden_size output_size)
    (inputs : Array2D F point_count input_size) (targets : Array2D F point_count output_size) :
    Option (FeedForward_Network F input_size hidden_size output_size) :=
  (List.finRange point_count).foldlM (fun network i =>
    train activation error network (inputs.row_values i) (targets.row_values i)) network

/-- The sum, over all `n` units `i` in index order, of `a i * w i`, accumulated
from `0` as the code's `temp += ...` loops do. -/
def weighted_sum (n : Nat) (a w : Fin n → F) : F :=
  (List.finRange n).foldl (fun acc i => acc + a i * w i) 0

/-- The hidden activations that a forward pass on `input` computes from the
weights of `network`. -/
def forward_hidden (activation : ActivationPolicy F)
    (network : FeedForward_Network F input_size hidden_size output_size)
    (input : StdArray F input_size) : StdArray F hidden_size :=
  fun j => activation.activation
    (weighted_sum input_size input fun i => network.weights_inputToHidden.get i j)

/-- The output activations that a forward pass on `input` computes from the
weights of `network`. -/
def forward_output (activation : ActivationPolicy F)
    (network : FeedForward_Network F input_size hidden_size output_size)
    (input : StdArray F input_size) : StdArray F output_size :=
  fun j => activation.activation
    (weighted_sum hidden_size (forward_hidden activation network input)
      fun i => network.weights_hiddenToOutput.get i j)

/-- The output deltas of `backprop`:
`error_dir(target[i], output[i]) * activation_dir(output[i])`. -/
def delta_out (activation : ActivationPolicy F) (error : ErrorPolicy F)
    (network : FeedForward_Network F input_size hidden_size output_size)
    (target : StdArray F output_size) : StdArray F output_size :=
  fun i => error.error_dir (target i) (network.activation_output i)
    * activation.activation_dir (network.activation_output i)

/-- The hidden deltas of `backprop`, from the hidden-to-output weights held by
`network`: `(sum over j of delta_out[j] * W(i,j)) * activation_dir(hidden[i])`. -/
def delta_hidden (activation : ActivationPolicy F) (error : ErrorPolicy F)
    (network : FeedForward_Network F input_size hidden_size output_size)
    (target : StdArray F output_size) : StdArray F hidden_size :=
  fun i => weighted_sum output_size (delta_out activation error network target)
      (fun j => network.weights_hiddenToOutput.get i j)
    * activation.activation_dir (network.activation_hidden i)

/-- The state that `calculate_activation` leaves: the three buffers rewritten,
everything else as in `network`. -/
def forward_state (activation : ActivationPolicy F)
    (network : FeedForward_Network F input_size hidden_size output_size)
    (input : StdArray F input_size) : FeedForward_Network F input_size hidden_size output_size :=
  { network with
    activation_input := input
    activation_hidden := forward_hidden activation network input
    activation_output := forward_output activation network input }

/-- The state that `backprop` leaves: the two weight matrices updated,
everything else as in `network`. -/
def backprop_state (activation : ActivationPolicy F) (error : ErrorPolicy F)
    (network : FeedForward_Network F input_size hidden_size output_size)
    (target : StdArray F output_size) : FeedForward_Network F input_size hidden_size output_size :=
  { network with
    weights_hiddenToOutput := updated_weights network.weights_hiddenToOutput
      fun k i => network.learning_rate * delta_out activation error network target i
        * network.activation_hidden k
    weights_inputToHidden := updated_weights network.weights_inputToHidden
      fun k i => network.learning_rate * delta_hidden activation error network target i
        * network.activation_input k }

/-- The total loss of an output vector against a target: the sum, over all
output units `j` in index order, of `error(target[j], output[j])`. -/
def total_error (error : ErrorPolicy F) (target output : StdArray F output_size) : F :=
  (List.finRange output_size).foldl (fun acc j => acc + error.error (target j) (output j)) 0

/-- The total loss of the forward pass of `input` under the weights of
`network`, against `target`. -/
def loss (activation : ActivationPolicy F) (error : ErrorPolicy F)
    (network : FeedForward_Network F input_size hidden_size output_size)
    (input : StdArray F input_size) (target : StdArray F output_size) : F :=
  total_error error target (forward_output activation network input)

/-- The network `network` with the weight `weights_hiddenToOutput(k, i)` set to `w`. -/
def with_hiddenToOutput (network : FeedForward_Network F input_size hidden_size output_size)
    (k : Fin hidden_size) (i : Fin output_size) (w : F) :
    FeedForward_Network F input_size hidden_size output_size :=
  { network with
    weights_hiddenToOutput :=
      ⟨Function.update network.weights_hiddenToOutput.data (Array2D.slot k i) w⟩ }

/-- The network `network` with the weight `weights_inputToHidden(k, i)` set to `w`. -/
def with_inputToHidden (network : FeedForward_Network F input_size hidden_size output_size)
    (k : Fin input_size) (i : Fin hidden_size) (w : F) :
    FeedForward_Network F input_size hidden_size output_size :=
  { network with
    weights_inputToHidden :=
      ⟨Function.update network.weights_inputToHidden.data (Array2D.slot k i) w⟩ }

end network

/-! ## Randomization -/

section random

variable {F : Type} {input_size hidden_size output_size : Nat}

/-- The statement `a(x, y) = v`. -/
def Array2D.assign {T : Type} {x_size y_size : Nat} (a : Array2D T x_size y_size) (x y : Int)
    (v : T) : Option (Array2D T x_size y_size) :=
  (a.operator_call x y).map fun s => ⟨Function.update a.data s v⟩

/-- The part of `<random>` that `randomize` uses, which is not code of `net.hpp`
and is taken as a parameter: the state of a `std::default_random_engine`, the
state of a `std::normal_distribution<float>`, the default-constructed engine
(the default constructor of every standard engine seeds it with the same fixed
`default_seed`), the distribution constructed with mean `0` and standard
deviation `.1`, and the call `distribution(generator)`, which returns a sample
and advances both states. -/
structure RandomSource (F : Type) where
  Engine : Type
  Distribution : Type
  default_engine : Engine
  normal_distribution : Distribution
  draw : Distribution → Engine → F × Distribution × Engine

/-- The function `randomize`: the engine and the distribution are locals,
constructed anew in every call. -/
def randomize (random : RandomSource F)
    (network : FeedForward_Network F input_size hidden_size output_size) :
    Option (FeedForward_Network F input_size hidden_size output_size) := do
  let generator := random.default_engine
  let distribution := random.normal_distribution
  let state ← (List.finRange input_size).foldlM (fun state (i : Fin input_size) =>
    (List.finRange hidden_size).foldlM
      (fun (state : FeedForward_Network F input_size hidden_size output_size
          × random.Distribution × random.Engine) (j : Fin hidden_size) => do
        let sample := random.draw state.2.1 state.2.2
        let w ← state.1.weights_inputToHidden.assign i.val j.val sample.1
        pure ({ state.1 with weights_inputToHidden := w }, sample.2)) state)
    (network, distribution, generator)
  let state ← (List.finRange hidden_size).foldlM (fun state (i : Fin hidden_size) =>
    (List.finRange output_size).foldlM
      (fun (state : FeedForward_Network F input_size hidden_size output_size
          × random.Distribution × random.Engine) (j : Fin output_size) => do
        let sample := random.draw state.2.1 state.2.2
        let w ← state.1.weights_hiddenToOutput.assign i.val j.val sample.1
        pure ({ state.1 with weights_hiddenToOutput := w }, sample.2)) state)
    state
  pure state.1

/-- The two nested loops of `randomize` on one matrix, once the checked accesses
are known to succeed: for each `i`, for each `j`,
`a(i, j) = distribution(generator)`. -/
def fill_random {X Y : Nat} (random : RandomSource F)
    (state : Array2D F X Y × random.Distribution × random.Engine) :
    Array2D F X Y × random.Distribution × random.Engine :=
  (List.finRange X).foldl (fun state i =>
    (List.finRange Y).foldl (fun state j =>
      (⟨Function.update state.1.data (Array2D.slot i j) (random.draw state.2.1 state.2.2).1⟩,
        (random.draw state.2.1 state.2.2).2)) state) state

end random

/-! ## Scalar arithmetic: the reals, and IEEE binary32 -/

/-- The arithmetic read over the reals: `exp` is the real exponential. -/
noncomputable instance : HasExp ℝ := ⟨Real.exp⟩

/-- Round a real to the nearest integer, ties to the even one. -/
noncomputable def round_even (y : ℝ) : ℤ :=
  if y - ⌊y⌋ < 1 / 2 then ⌊y⌋
  else if 1 / 2 < y - ⌊y⌋ then ⌊y⌋ + 1
  else if Even ⌊y⌋ then ⌊y⌋ else ⌊y⌋ + 1

/-- The exponent of the unit in the last place of binary32 at `x`: `e - 23` when
`2^e ≤ |x| < 2^(e+1)` with `e ≥ -126`, and `-149` below that (subnormals). -/
noncomputable def binary32_ulp_exp (x : ℝ) : ℤ := max (Int.log 2 |x|) (-126) - 23

/-- Round a real to binary32 precision (24 significant bits, gradual underflow),
to nearest, ties to even, with no bound on the exponent from above. -/
noncomputable def binary32_round (x : ℝ) : ℝ :=
  (round_even (x / 2 ^ binary32_ulp_exp x) : ℝ) * 2 ^ binary32_ulp_exp x

/-- The largest finite binary32 value, `(2^24 - 1) * 2^104`. -/
def binary32_max : ℝ := (2 ^ 24 - 1) * 2 ^ 104

/-- A value of the C++ type `float` (IEEE binary32): a finite value, or
`untracked` for everything this model does not follow: an infinity or NaN, which
arise from overflow or division by zero, and any result computed from one. -/
inductive Binary32 where
  | finite (v : ℝ)
  | untracked

/-- The binary32 result of an operation whose exact result is `r`: `r` rounded,
or `untracked` when the rounded value overflows. -/
noncomputable def Binary32.of_real (r : ℝ) : Binary32 :=
  if |binary32_round r| ≤ binary32_max then Binary32.finite (binary32_round r)
  else Binary32.untracked

/-- A binary operation on binary32 with exact result `op x y`. -/
noncomputable def Binary32.lift₂ (op : ℝ → ℝ → ℝ) : Binary32 → Binary32 → Binary32
  | Binary32.finite x, Binary32.finite y => Binary32.of_real (op x y)
  | _, _ => Binary32.untracked

noncomputable instance : Zero Binary32 := ⟨Binary32.finite 0⟩
noncomputable instance : One Binary32 := ⟨Binary32.finite 1⟩
noncomputable instance : Add Binary32 := ⟨Binary32.lift₂ fun x y => x + y⟩
noncomputable instance : Sub Binary32 := ⟨Binary32.lift₂ fun x y => x - y⟩
noncomputable instance : Mul Binary32 := ⟨Binary32.lift₂ fun x y => x * y⟩

/-- Division; a zero divisor gives an infinity or NaN. -/
noncomputable instance : Div Binary32 :=
  ⟨fun a b => match a, b with
    | Binary32.finite x, Binary32.finite y =>
      if y = 0 then Binary32.untracked else Binary32.of_real (x / y)
    | _, _ => Binary32.untracked⟩

/-- Negation is exact. -/
noncomputable instance : Neg Binary32 :=
  ⟨fun a => match a with
    | Binary32.finite x => Binary32.finite (-x)
    | Binary32.untracked => Binary32.untracked⟩

/-- The function `exp` on binary32, taken as correctly rounded: the reading in
which `exp(-k)` is the `float` function and every operation of
`1/(1+exp(-k))` rounds to binary32.  Where `exp` resolves to the `double`
function the quotient is evaluated in double and rounded once on return; the
two readings can differ in the last place at other arguments, and agree at the
sums `0` and `128` that occur below. -/
noncomputable instance : HasExp Binary32 :=
  ⟨fun a => match a with
    | Binary32.finite x => Binary32.of_real (Real.exp x)
    | Binary32.untracked => Binary32.untracked⟩

/-! ## Concrete data for the witnesses -/

/-- An activation policy over the integers: the identity, with derivative `1`. -/
def Identity_Activation : ActivationPolicy Int where
  activation := fun k => k
  activation_dir := fun _ => 1

/-- A 2-2-1 network over the integers. -/
def example_network : FeedForward_Network Int 2 2 1 where
  learning_rate := 1
  weights_inputToHidden := ⟨![1, 2, 3, 4]⟩
  weights_hiddenToOutput := ⟨![5, 6]⟩
  activation_input := ![0, 0]
  activation_hidden := ![0, 0]
  activation_output := ![0]

/-- The network `example_network` with other contents in its activation buffers
and another learning rate. -/
def example_network_stale : FeedForward_Network Int 2 2 1 where
  learning_rate := 3
  weights_inputToHidden := ⟨![1, 2, 3, 4]⟩
  weights_hiddenToOutput := ⟨![5, 6]⟩
  activation_input := ![7, 8]
  activation_hidden := ![9, 10]
  activation_output := ![11]

/-- A 1-1-1 binary32 network: input-to-hidden weight `0`, hidden-to-output
weight `256`. -/
noncomputable def saturating_network : FeedForward_Network Binary32 1 1 1 where
  learning_rate := Binary32.finite 1
  weights_inputToHidden := ⟨fun _ => Binary32.finite 0⟩
  weights_hiddenToOutput := ⟨fun _ => Binary32.finite 256⟩
  activation_input := fun _ => Binary32.finite 0
  activation_hidden := fun _ => Binary32.finite 0
  activation_output := fun _ => Binary32.finite 0

/-- A 1-1-1 network over the reals whose output buffer holds `1/2`. -/
noncomputable def fixed_point_network : FeedForward_Network ℝ 1 1 1 where
  learning_rate := 4 / 5
  weights_inputToHidden := ⟨fun _ => 1⟩
  weights_hiddenToOutput := ⟨fun _ => 1⟩
  activation_input := fun _ => 1
  activation_hidden := fun _ => 1 / 2
  activation_output := fun _ => 1 / 2

/-- A concrete random source over the integers: the engine is `minstd_rand0`
(`x ↦ 16807 * x mod (2^31 - 1)`, default seed `1`), which is what
`std::default_random_engine` is in libstdc++; the distribution is taken to
return the output of the engine as it is. -/
def minstd_rand0 : RandomSource Int where
  Engine := Int
  Distribution := Unit
  default_engine := 1
  normal_distribution := ()
  draw := fun _ x => (16807 * x % 2147483647, (), 16807 * x % 2147483647)

section Array2D_lemmas

variable {T : Type} {x_size y_size : Nat}

theorem std_array_at_eq_none (n : Nat) (i : Int) :
    std_array_at n i = none ↔ (i < 0 ∨ (n : Int) ≤ i) := by
  unfold std_array_at
  split
  · simp; omega
  · simp; omega

theorem std_array_at_eq_some {n : Nat} {i : Int} {s : Fin n} (h : std_array_at n i = some s) :
    (s.val : Int) = i := by
  unfold std_array_at at h
  split at h
  · cases h; simp; omega
  · cases h

theorem operator_call_slot (a : Array2D T x_size y_size) (x : Fin x_size) (y : Fin y_size) :
    a.operator_call x.val y.val = some (Array2D.slot x y) := by
  have hlt := (Array2D.slot x y).isLt
  have hval : (Array2D.slot x y).val = x.val * y_size + y.val := rfl
  unfold Array2D.operator_call std_array_at
  have hidx : (y.val : Int) + (y_size : Int) * (x.val : Int)
      = ((x.val * y_size + y.val : Nat) : Int) := by push_cast; ring
  rw [dif_pos]
  · congr 1
    apply Fin.ext
    simp only [hidx, Int.toNat_ofNat, hval]
  · rw [hidx]; constructor
    · exact Int.ofNat_nonneg _
    · rw [← hval]; exact_mod_cast hlt

theorem slot_injective {x x' : Fin x_size} {y y' : Fin y_size}
    (h : (Array2D.slot x y : Fin (x_size * y_size)) = Array2D.slot x' y') : x = x' ∧ y = y' := by
  have hv : x.val * y_size + y.val = x'.val * y_size + y'.val := congrArg Fin.val h
  have hy := y.isLt
  have hy' := y'.isLt
  have hx : x.val = x'.val := by
    have h1 : (x.val * y_size + y.val) / y_size = x.val := by
      rw [Nat.mul_comm, Nat.mul_add_div (by omega), Nat.div_eq_of_lt hy, Nat.add_zero]
    have h2 : (x'.val * y_size + y'.val) / y_size = x'.val := by
      rw [Nat.mul_comm, Nat.mul_add_div (by omega), Nat.div_eq_of_lt hy', Nat.add_zero]
    rw [← h1, ← h2, hv]
  refine ⟨Fin.ext hx, Fin.ext ?_⟩
  rw [hx] at hv
  omega

theorem slot_surjective (s : Fin (x_size * y_size)) :
    ∃ x : Fin x_size, ∃ y : Fin y_size, Array2D.slot x y = s := by
  have hs := s.isLt
  have hY : 0 < y_size := by
    rcases Nat.eq_zero_or_pos y_size with h | h
    · have h0 : x_size * y_size = 0 := by rw [h, Nat.mul_zero]
      omega
    · exact h
  refine ⟨⟨s.val / y_size, ?_⟩, ⟨s.val % y_size, Nat.mod_lt _ hY⟩, ?_⟩
  · rw [Nat.div_lt_iff_lt_mul hY]; exact hs
  · apply Fin.ext
    show s.val / y_size * y_size + s.val % y_size = s.val
    rw [Nat.mul_comm]; exact Nat.div_add_mod _ _

theorem read_get (a : Array2D T x_size y_size) (x : Fin x_size) (y : Fin y_size) :
    a.read x.val y.val = some (a.get x y) := by
  unfold Array2D.read Array2D.get
  rw [operator_call_slot]; rfl

theorem add_assign_slot [Add T] (a : Array2D T x_size y_size) (x : Fin x_size) (y : Fin y_size)
    (v : T) :
    a.add_assign x.val y.val v
      = some ⟨Function.update a.data (Array2D.slot x y) (a.get x y + v)⟩ := by
  unfold Array2D.add_assign Array2D.get
  rw [operator_call_slot]; rfl

theorem foldl_add_assign_inner {F : Type} [Add F] {X Y : Nat} (c : Fin Y → F) (k : Fin X)
    (l : List (Fin Y)) (hl : l.Nodup) (a : Array2D F X Y) (k' : Fin X) (i' : Fin Y) :
    (l.foldl (fun a i => (⟨Function.update a.data (Array2D.slot k i) (a.get k i + c i)⟩ :
        Array2D F X Y)) a).get k' i'
      = if k' = k ∧ i' ∈ l then a.get k' i' + c i' else a.get k' i' := by
  induction l generalizing a with
  | nil => simp
  | cons i l ih =>
    rw [List.foldl_cons, ih (List.nodup_cons.mp hl).2]
    have hi : i ∉ l := (List.nodup_cons.mp hl).1
    have hget : ∀ (x : Fin X) (y : Fin Y),
        (⟨Function.update a.data (Array2D.slot k i) (a.get k i + c i)⟩ : Array2D F X Y).get x y
          = if x = k ∧ y = i then a.get k i + c i else a.get x y := by
      intro x y
      unfold Array2D.get
      by_cases h : x = k ∧ y = i
      · obtain ⟨h1, h2⟩ := h
        subst h1; subst h2
        simp
      · have hne : (Array2D.slot x y : Fin (X * Y)) ≠ Array2D.slot k i :=
          fun hs => h (slot_injective hs)
        simp only [Function.update_noteq hne, if_neg h]
    rw [hget]
    by_cases hk : k' = k
    · subst hk
      by_cases hi' : i' = i
      · subst hi'
        simp [hi]
      · simp [hi']
    · simp [hk]

theorem foldl_add_assign_outer {F : Type} [Add F] {X Y : Nat} (c : Fin X → Fin Y → F) (lk : List (Fin X))
    (hlk : lk.Nodup) (li : List (Fin Y)) (hli : li.Nodup) (a : Array2D F X Y)
    (k' : Fin X) (i' : Fin Y) :
    (lk.foldl (fun a k => li.foldl (fun a i =>
        (⟨Function.update a.data (Array2D.slot k i) (a.get k i + c k i)⟩ : Array2D F X Y)) a)
      a).get k' i'
      = if k' ∈ lk ∧ i' ∈ li then a.get k' i' + c k' i' else a.get k' i' := by
  induction lk generalizing a with
  | nil => simp
  | cons k lk ih =>
    rw [List.foldl_cons, ih (List.nodup_cons.mp hlk).2]
    have hk : k ∉ lk := (List.nodup_cons.mp hlk).1
    rw [foldl_add_assign_inner (c k) k li hli a k' i']
    by_cases hk' : k' = k
    · subst hk'
      simp [hk]
    · simp [hk']

/-- After the update loops, `a(k, i)` holds its old value plus `c k i`. -/
theorem updated_weights_get {F : Type} [Add F] {X Y : Nat} (a : Array2D F X Y) (c : Fin X → Fin Y → F)
    (k : Fin X) (i : Fin Y) :
    (updated_weights a c).get k i = a.get k i + c k i := by
  unfold updated_weights
  rw [foldl_add_assign_outer c _ (List.nodup_finRange X) _ (List.nodup_finRange Y)]
  simp [List.mem_finRange]

end Array2D_lemmas

/-- C9, as stated, fails: in a 2 x 3 buffer the pair `(0, 3)` is out of range
(`y = 3` is not below `y_size = 3`), yet `operator()` does not fail: its linear
index is `3 + 3*0 = 3 < 6`, and it returns slot 3, the slot of the in-range pair
`(1, 0)`. -/
theorem operator_call_out_of_range_not_rejected :
    OutOfRange 2 3 0 3 ∧
      (⟨fun _ => 0⟩ : Array2D Int 2 3).operator_call 0 3 = some (Array2D.slot 1 0) ∧
      (⟨fun _ => 0⟩ : Array2D Int 2 3).operator_call 0 3 ≠ none := by
  decide

/-- C9, amended: for every `Array2D` with dimensions X and Y and every pair
`(x, y)` of `int` values for which the index computation `y + Y*x` does not
overflow (`x`, `y`, `Y*x` and `y + Y*x` are representable in `int`),
`operator()` fails exactly when the linear index `y + Y*x` is negative or at
least `X*Y`; when it does not fail, the slot it returns is the one with that
linear index. -/
theorem operator_call_fails_iff (a : Array2D T x_size y_size) (x y : Int)
    (_hx : int_range x) (_hy : int_range y)
    (_hmul : int_range ((y_size : Int) * x)) (_hadd : int_range (y + (y_size : Int) * x)) :
    (a.operator_call x y = none ↔
      (y + (y_size : Int) * x < 0 ∨ ((x_size * y_size : Nat) : Int) ≤ y + (y_size : Int) * x)) ∧
    (∀ s, a.operator_call x y = some s → (s.val : Int) = y + (y_size : Int) * x) :=
  ⟨std_array_at_eq_none _ _, fun _ h => std_array_at_eq_some h⟩

/-- Witness of C9 as amended: in a 2 x 3 buffer the pair `(-1, 2)` has the linear
index `2 + 3*(-1) = -1`, computed without overflow, and `operator()` fails. -/
theorem operator_call_fails_iff_witness :
    int_range (-1) ∧ int_range 2 ∧ int_range (((3 : Nat) : Int) * (-1)) ∧
    int_range (2 + ((3 : Nat) : Int) * (-1)) ∧
    (((⟨fun _ => 0⟩ : Array2D Int 2 3).operator_call (-1) 2 = none ↔
      (2 + ((3 : Nat) : Int) * (-1) < 0 ∨ ((2 * 3 : Nat) : Int) ≤ 2 + ((3 : Nat) : Int) * (-1))) ∧
    (∀ s, (⟨fun _ => 0⟩ : Array2D Int 2 3).operator_call (-1) 2 = some s →
      (s.val : Int) = 2 + ((3 : Nat) : Int) * (-1))) :=
  ⟨by decide, by decide, by decide, by decide,
    operator_call_fails_iff (⟨fun _ => 0⟩ : Array2D Int 2 3) (-1) 2
      (by decide) (by decide) (by decide) (by decide)⟩

/-- C10: for every `Array2D` with dimensions X and Y, `operator()` maps each
in-range pair `(x, y)` to the linear slot `x*Y + y`, which is below `X*Y`, so the
access does not fail; distinct in-range pairs get distinct slots; every slot
is reached by exactly one in-range pair; hence the two weight matrices of a
network have exactly `input_size*hidden_size` and `hidden_size*output_size`
addressable slots. -/
theorem operator_call_layout (a : Array2D T x_size y_size) :
    (∀ (x : Fin x_size) (y : Fin y_size), ∃ s : Fin (x_size * y_size),
        a.operator_call x.val y.val = some s ∧ s.val = x.val * y_size + y.val
          ∧ s.val < x_size * y_size) ∧
    (∀ (x x' : Fin x_size) (y y' : Fin y_size),
        a.operator_call x.val y.val = a.operator_call x'.val y'.val → x = x' ∧ y = y') ∧
    (∀ s : Fin (x_size * y_size), ∃! p : Fin x_size × Fin y_size,
        a.operator_call p.1.val p.2.val = some s) ∧
    a.addressable.card = x_size * y_size ∧
    (∀ (F : Type) (i h o : Nat) (network : FeedForward_Network F i h o),
        network.weights_inputToHidden.addressable.card = i * h ∧
        network.weights_hiddenToOutput.addressable.card = h * o) := by
  have hcard : ∀ (U : Type) (X Y : Nat) (b : Array2D U X Y), b.addressable.card = X * Y := by
    intro U X Y b
    have : b.addressable = Finset.univ := by
      apply Finset.eq_univ_of_forall
      intro s
      obtain ⟨x, y, hxy⟩ := slot_surjective s
      simp only [Array2D.addressable, Finset.mem_filter, Finset.mem_univ, true_and]
      exact ⟨x, y, by rw [operator_call_slot, hxy]⟩
    rw [this, Finset.card_univ, Fintype.card_fin]
  refine ⟨?_, ?_, ?_, hcard _ _ _ a, fun F i h o network => ⟨hcard _ _ _ _, hcard _ _ _ _⟩⟩
  · intro x y
    exact ⟨Array2D.slot x y, operator_call_slot a x y, rfl, (Array2D.slot x y).isLt⟩
  · intro x x' y y' h
    rw [operator_call_slot, operator_call_slot] at h
    exact slot_injective (Option.some.inj h)
  · intro s
    obtain ⟨x, y, hxy⟩ := slot_surjective s
    refine ⟨(x, y), by simp only [operator_call_slot, hxy], ?_⟩
    rintro ⟨x', y'⟩ h
    simp only [operator_call_slot, Option.some.injEq] at h
    obtain ⟨h1, h2⟩ := slot_injective (h.trans hxy.symm)
    rw [h1, h2]

/-! ## Loops -/

section loop_lemmas

/-- A loop whose body never fails and only rewrites the component `t` of the
state `emb t` is the pure fold on that component. -/
theorem foldlM_lift {σ τ ι : Type} (emb : τ → σ) (f : σ → ι → Option σ) (g : τ → ι → τ)
    (l : List ι) (h : ∀ t, ∀ i ∈ l, f (emb t) i = some (emb (g t i))) (t : τ) :
    l.foldlM f (emb t) = some (emb (l.foldl g t)) := by
  induction l generalizing t with
  | nil => rfl
  | cons i l ih =>
    rw [List.foldlM_cons, h t i (List.mem_cons_self _ _)]
    exact ih (fun t j hj => h t j (List.mem_cons_of_mem _ hj)) (g t i)

theorem foldl_update {ι U : Type} [DecidableEq ι] (v : ι → U) (l : List ι) (a : ι → U) :
    l.foldl (fun a i => Function.update a i (v i)) a = fun j => if j ∈ l then v j else a j := by
  induction l generalizing a with
  | nil => funext j; simp
  | cons i l ih =>
    rw [List.foldl_cons, ih]
    funext j
    by_cases hj : j ∈ l
    · simp [hj]
    · by_cases hji : j = i
      · subst hji; simp [hj]
      · simp [hj, hji, Function.update_noteq hji]

theorem foldl_update_finRange {n : Nat} {U : Type} (v : Fin n → U) (a : Fin n → U) :
    (List.finRange n).foldl (fun a i => Function.update a i (v i)) a = v := by
  rw [foldl_update]
  funext j
  simp [List.mem_finRange]

/-- A buffer-filling loop on the component `a` of the state `emb a`: every entry
`i` is overwritten with `v i`. -/
theorem foldlM_fill {σ U : Type} {n : Nat} (emb : (Fin n → U) → σ) (f : σ → Fin n → Option σ)
    (v : Fin n → U) (h : ∀ a i, f (emb a) i = some (emb (Function.update a i (v i))))
    (a : Fin n → U) :
    (List.finRange n).foldlM f (emb a) = some (emb v) := by
  have := foldlM_lift emb f (fun a i => Function.update a i (v i)) (List.finRange n)
    (fun a i _ => h a i) a
  rw [foldl_update_finRange] at this
  exact this

theorem deref_data {U : Type} {n : Nat} (a : StdArray U n) (i : Fin n) :
    (StdArray.data a).deref i.val = some (a i) := by
  have hi := i.isLt
  unfold Ptr.deref StdArray.data
  rw [dif_pos (by simp)]
  simp

theorem deref_row {U : Type} {X Y : Nat} (a : Array2D U X Y) (x : Fin X) (y : Fin Y) :
    (a.row x.val).deref y.val = some (a.row_values x y) := by
  have hlt := (Array2D.slot x y).isLt
  have hval : (Array2D.slot x y).val = x.val * Y + y.val := rfl
  have hidx : (x.val : Int) * (Y : Int) + (y.val : Int) = ((x.val * Y + y.val : Nat) : Int) := by
    push_cast; ring
  unfold Ptr.deref Array2D.row Array2D.row_values Array2D.get
  simp only
  rw [dif_pos]
  · congr 2
  · rw [hidx]; constructor
    · exact Int.ofNat_nonneg _
    · rw [← hval]; exact_mod_cast hlt

end loop_lemmas

section network_lemmas

variable {F : Type} [Zero F] [Add F] [Mul F]
variable {input_size hidden_size output_size : Nat}

/-- The inner `temp += a[j] * w[j]` loop computes `weighted_sum`. -/
theorem foldlM_weighted_sum {n : Nat} (f : F → Fin n → Option F) (a w : Fin n → F)
    (h : ∀ temp j, f temp j = some (temp + a j * w j)) :
    (List.finRange n).foldlM f (0 : F) = some (weighted_sum n a w) :=
  foldlM_lift id f (fun temp j => temp + a j * w j) (List.finRange n) (fun t j _ => h t j) 0

/-- Closed form of the forward pass through a pointer that reads `input`. -/
theorem calculate_activation_ptr_eq (activation : ActivationPolicy F)
    (network : FeedForward_Network F input_size hidden_size output_size)
    (p : Ptr F) (input : StdArray F input_size)
    (hp : ∀ i : Fin input_size, p.deref i.val = some (input i)) :
    calculate_activation_ptr activation network p
      = some { network with
          activation_input := input
          activation_hidden := forward_hidden activation network input
          activation_output := forward_output activation network input } := by
  unfold calculate_activation_ptr
  simp only [bind, Option.bind_eq_some]
  refine ⟨{ network with activation_input := input }, ?_,
    { network with
      activation_input := input
      activation_hidden := forward_hidden activation network input }, ?_, ?_⟩
  · refine foldlM_fill (fun a => { network with activation_input := a }) _ input ?_
      network.activation_input
    intro a i; simp only [hp]; rfl
  · refine foldlM_fill
      (fun a => { network with activation_input := input, activation_hidden := a }) _
      (forward_hidden activation network input) ?_ network.activation_hidden
    intro a i
    have hs := foldlM_weighted_sum
      (fun temp (j : Fin input_size) =>
        (p.deref j.val).bind fun v =>
          (network.weights_inputToHidden.read j.val i.val).bind fun w =>
            some (temp + v * w))
      input (fun j => network.weights_inputToHidden.get j i)
      (by intro temp j; simp only [hp, read_get]; rfl)
    simp only [bind, pure] at hs ⊢
    rw [hs]; rfl
  · refine foldlM_fill
      (fun a => { network with
        activation_input := input
        activation_hidden := forward_hidden activation network input
        activation_output := a }) _
      (forward_output activation network input) ?_ network.activation_output
    intro a i
    have hs := foldlM_weighted_sum
      (fun temp (j : Fin hidden_size) =>
        (network.weights_hiddenToOutput.read j.val i.val).bind fun w =>
          some (temp + forward_hidden activation network input j * w))
      (forward_hidden activation network input)
      (fun j => network.weights_hiddenToOutput.get j i)
      (by intro temp j; simp only [read_get]; rfl)
    simp only [bind, pure] at hs ⊢
    rw [hs]; rfl

/-- Closed form of `backprop` through a pointer that reads `target`. -/
theorem backprop_ptr_eq (activation : ActivationPolicy F) (error : ErrorPolicy F)
    (network : FeedForward_Network F input_size hidden_size output_size)
    (p : Ptr F) (target : StdArray F output_size)
    (hp : ∀ i : Fin output_size, p.deref i.val = some (target i)) :
    backprop_ptr activation error network p
      = some { network with
          weights_hiddenToOutput := updated_weights network.weights_hiddenToOutput
            fun k i => network.learning_rate * delta_out activation error network target i
              * network.activation_hidden k
          weights_inputToHidden := updated_weights network.weights_inputToHidden
            fun k i => network.learning_rate * delta_hidden activation error network target i
              * network.activation_input k } := by
  unfold backprop_ptr
  simp only [bind, Option.bind_eq_some]
  refine ⟨delta_out activation error network target, ?_,
    delta_hidden activation error network target, ?_,
    { network with
      weights_hiddenToOutput := updated_weights network.weights_hiddenToOutput
        fun k i => network.learning_rate * delta_out activation error network target i
          * network.activation_hidden k }, ?_, ?_⟩
  · refine foldlM_fill id _ (delta_out activation error network target) ?_ _
    intro a i; simp only [hp]; rfl
  · refine foldlM_fill id _ (delta_hidden activation error network target) ?_ _
    intro a i
    have hs := foldlM_weighted_sum
      (fun error_sum (k : Fin output_size) =>
        (network.weights_hiddenToOutput.read i.val k.val).bind fun w =>
          some (error_sum + delta_out activation error network target k * w))
      (delta_out activation error network target)
      (fun k => network.weights_hiddenToOutput.get i k)
      (by intro temp j; simp only [read_get]; rfl)
    simp only [bind, pure] at hs ⊢
    rw [hs]; rfl
  · refine foldlM_lift (fun w => { network with weights_hiddenToOutput := w }) _
      (fun a k => (List.finRange output_size).foldl (fun a i =>
        ⟨Function.update a.data (Array2D.slot k i)
          (a.get k i + network.learning_rate * delta_out activation error network target i
            * network.activation_hidden k)⟩) a)
      (List.finRange hidden_size) ?_ network.weights_hiddenToOutput
    intro w k _
    refine foldlM_lift (fun w => { network with weights_hiddenToOutput := w }) _
      (fun a i => ⟨Function.update a.data (Array2D.slot k i)
          (a.get k i + network.learning_rate * delta_out activation error network target i
            * network.activation_hidden k)⟩)
      (List.finRange output_size) ?_ w
    intro w i _
    simp only [add_assign_slot]; rfl
  · refine foldlM_lift
      (fun w => { network with
        weights_hiddenToOutput := updated_weights network.weights_hiddenToOutput
          fun k i => network.learning_rate * delta_out activation error network target i
            * network.activation_hidden k
        weights_inputToHidden := w }) _
      (fun a k => (List.finRange hidden_size).foldl (fun a i =>
        ⟨Function.update a.data (Array2D.slot k i)
          (a.get k i + network.learning_rate * delta_hidden activation error network target i
            * network.activation_input k)⟩) a)
      (List.finRange input_size) ?_ network.weights_inputToHidden
    intro w k _
    refine foldlM_lift
      (fun w => { network with
        weights_hiddenToOutput := updated_weights network.weights_hiddenToOutput
          fun k i => network.learning_rate * delta_out activation error network target i
            * network.activation_hidden k
        weights_inputToHidden := w }) _
      (fun a i => ⟨Function.update a.data (Array2D.slot k i)
          (a.get k i + network.learning_rate * delta_hidden activation error network target i
            * network.activation_input k)⟩)
      (List.finRange hidden_size) ?_ w
    intro w i _
    simp only [add_assign_slot]; rfl

end network_lemmas

/-! ## The operations -/

section operations

variable {F : Type} [Zero F] [Add F] [Mul F]
variable {input_size hidden_size output_size : Nat}

/-- Over a semiring the accumulated sum is the usual finite sum. -/
theorem weighted_sum_eq_sum {R : Type} [Semiring R] {n : Nat} (a w : Fin n → R) :
    weighted_sum n a w = ∑ i, a i * w i := by
  unfold weighted_sum
  have h : ∀ (l : List (Fin n)) (z : R),
      l.foldl (fun acc i => acc + a i * w i) z = z + (l.map fun i => a i * w i).sum := by
    intro l
    induction l with
    | nil => intro z; simp
    | cons i l ih => intro z; rw [List.foldl_cons, ih, List.map_cons, List.sum_cons, add_assoc]
  rw [h, zero_add, Fin.sum_univ_def]

theorem calculate_activation_eq (activation : ActivationPolicy F)
    (network : FeedForward_Network F input_size hidden_size output_size)
    (input : StdArray F input_size) :
    calculate_activation activation network input
      = some { network with
          activation_input := input
          activation_hidden := forward_hidden activation network input
          activation_output := forward_output activation network input } :=
  calculate_activation_ptr_eq activation network _ input (deref_data input)

theorem backprop_eq (activation : ActivationPolicy F) (error : ErrorPolicy F)
    (network : FeedForward_Network F input_size hidden_size output_size)
    (target : StdArray F output_size) :
    backprop activation error network target
      = some { network with
          weights_hiddenToOutput := updated_weights network.weights_hiddenToOutput
            fun k i => network.learning_rate * delta_out activation error network target i
              * network.activation_hidden k
          weights_inputToHidden := updated_weights network.weights_inputToHidden
            fun k i => network.learning_rate * delta_hidden activation error network target i
              * network.activation_input k } :=
  backprop_ptr_eq activation error network _ target (deref_data target)

/-- The body of the batch loop is the single-example `train` on the two rows. -/
theorem train_batch_body (activation : ActivationPolicy F) (error : ErrorPolicy F)
    {point_count : Nat}
    (network : FeedForward_Network F input_size hidden_size output_size)
    (inputs : Array2D F point_count input_size) (targets : Array2D F point_count output_size)
    (i : Fin point_count) :
    ((calculate_activation_ptr activation network (inputs.row i.val)).bind fun network =>
        backprop_ptr activation error network (targets.row i.val))
      = train activation error network (inputs.row_values i) (targets.row_values i) := by
  unfold train
  rw [calculate_activation_ptr_eq activation network _ (inputs.row_values i) (deref_row inputs i),
    calculate_activation_eq]
  simp only [bind, Option.some_bind]
  rw [backprop_ptr_eq activation error _ _ (targets.row_values i) (deref_row targets i),
    backprop_eq]

theorem train_total (activation : ActivationPolicy F) (error : ErrorPolicy F)
    (network : FeedForward_Network F input_size hidden_size output_size)
    (input : StdArray F input_size) (target : StdArray F output_size) :
    ∃ network', train activation error network input target = some network' := by
  unfold train
  rw [calculate_activation_eq]
  simp only [bind, Option.some_bind]
  rw [backprop_eq]
  exact ⟨_, rfl⟩

theorem predict_eq (activation : ActivationPolicy F)
    (network : FeedForward_Network F input_size hidden_size output_size)
    (input : StdArray F input_size) :
    predict activation network input
      = some ({ network with
          activation_input := input
          activation_hidden := forward_hidden activation network input
          activation_output := forward_output activation network input },
        forward_output activation network input) := by
  unfold predict
  rw [calculate_activation_eq]
  rfl

theorem foldlM_total {σ ι : Type} (f : σ → ι → Option σ) (h : ∀ s i, ∃ s', f s i = some s')
    (l : List ι) (s : σ) : ∃ s', l.foldlM f s = some s' := by
  induction l generalizing s with
  | nil => exact ⟨s, rfl⟩
  | cons i l ih =>
    obtain ⟨s1, h1⟩ := h s i
    rw [List.foldlM_cons, h1]
    exact ih s1

/-- One single-example `train` call evaluated on `example_network` with input
`(1, 10)` and target `7`: the forward pass gives hidden `(31, 42)` and output
`407`; the output delta is `(7 - 407) * 1 = -400`, the hidden deltas are
`-400 * 5` and `-400 * 6`, computed from the hidden-to-output weights `5` and `6`
held on entry. -/
theorem train_example_network :
    (train Identity_Activation (Squared_Error Int) example_network ![1, 10] ![7]).map
        (fun network =>
          (List.ofFn network.weights_inputToHidden.data,
            List.ofFn network.weights_hiddenToOutput.data,
            List.ofFn network.activation_hidden, List.ofFn network.activation_output))
      = some ([-1999, -2398, -19997, -23996], [-12395, -16794], [31, 42], [407]) := by
  decide

/-- C1: for every network state and every input vector of length `input_size`,
`calculate_activation` returns, the input buffer then equals the input
unchanged, every `hidden[j]` equals `activation` of the sum over all input units
`i` of `input[i] * weights_inputToHidden(i,j)`, and every `output[j]` equals
`activation` of the sum over all hidden units `i` of
`hidden[i] * weights_hiddenToOutput(i,j)` with `hidden` the freshly computed
hidden buffer; the sums start from `0`, no bias term is added. -/
theorem calculate_activation_forward (activation : ActivationPolicy F)
    (network : FeedForward_Network F input_size hidden_size output_size)
    (input : StdArray F input_size) :
    ∃ network', calculate_activation activation network input = some network' ∧
      network'.activation_input = input ∧
      (∀ j, network'.activation_hidden j = activation.activation
        (weighted_sum input_size input fun i => network.weights_inputToHidden.get i j)) ∧
      (∀ j, network'.activation_output j = activation.activation
        (weighted_sum hidden_size network'.activation_hidden
          fun i => network.weights_hiddenToOutput.get i j)) :=
  ⟨_, calculate_activation_eq activation network input, rfl, fun _ => rfl, fun _ => rfl⟩

/-- C2: for every network state and target, `backprop` returns, and for every
hidden unit `k` and output unit `i` the value of `weights_hiddenToOutput(k,i)`
afterwards equals its value before plus
`learning_rate * (error_dir(target[i], output[i]) * activation_dir(output[i])) * hidden[k]`,
where `output` and `hidden` are the activation buffers held on entry. -/
theorem backprop_hidden_to_output (activation : ActivationPolicy F) (error : ErrorPolicy F)
    (network : FeedForward_Network F input_size hidden_size output_size)
    (target : StdArray F output_size) :
    ∃ network', backprop activation error network target = some network' ∧
      ∀ (k : Fin hidden_size) (i : Fin output_size),
        network'.weights_hiddenToOutput.get k i
          = network.weights_hiddenToOutput.get k i
            + network.learning_rate
              * (error.error_dir (target i) (network.activation_output i)
                  * activation.activation_dir (network.activation_output i))
              * network.activation_hidden k :=
  ⟨_, backprop_eq activation error network target, fun k i => updated_weights_get _ _ k i⟩

/-- C3: for every network state and target, `backprop` returns, and for every
input unit `k` and hidden unit `i` the value of `weights_inputToHidden(k,i)`
afterwards equals its value before plus `learning_rate * delta_hidden[i] * input[k]`,
where `delta_hidden[i]` is
`(sum over all output units j of delta_out[j] * W(i,j)) * activation_dir(hidden[i])`
and `W` is the hidden-to-output matrix as it was on entry to `backprop`. -/
theorem backprop_input_to_hidden (activation : ActivationPolicy F) (error : ErrorPolicy F)
    (network : FeedForward_Network F input_size hidden_size output_size)
    (target : StdArray F output_size) :
    ∃ network', backprop activation error network target = some network' ∧
      ∀ (k : Fin input_size) (i : Fin hidden_size),
        network'.weights_inputToHidden.get k i
          = network.weights_inputToHidden.get k i
            + network.learning_rate
              * (weighted_sum output_size
                    (fun j => error.error_dir (target j) (network.activation_output j)
                      * activation.activation_dir (network.activation_output j))
                    (fun j => network.weights_hiddenToOutput.get i j)
                  * activation.activation_dir (network.activation_hidden i))
              * network.activation_input k :=
  ⟨_, backprop_eq activation error network target, fun k i => updated_weights_get _ _ k i⟩

/-- C4: for every `point_count`, every starting network and every pair of stacked
buffers, the batch `train` returns, and yields exactly the network that the
single-example `train` yields when called on (row `i` of `inputs`, row `i` of
`targets`) for `i = 0, 1, ..., point_count - 1` in that order from the same
starting state; for `point_count = 0` the network is unchanged. -/
theorem train_batch_eq_train_each (activation : ActivationPolicy F) (error : ErrorPolicy F)
    (network : FeedForward_Network F input_size hidden_size output_size) :
    (∀ (point_count : Nat) (inputs : Array2D F point_count input_size)
        (targets : Array2D F point_count output_size),
        ∃ network', train_batch activation error network inputs targets = some network' ∧
          train_each activation error network inputs targets = some network') ∧
    (∀ (inputs : Array2D F 0 input_size) (targets : Array2D F 0 output_size),
        train_batch activation error network inputs targets = some network) := by
  refine ⟨fun point_count inputs targets => ?_, fun _ _ => rfl⟩
  have hbody : (fun (network : FeedForward_Network F input_size hidden_size output_size)
        (i : Fin point_count) =>
        (calculate_activation_ptr activation network (inputs.row i.val)).bind fun network =>
          backprop_ptr activation error network (targets.row i.val))
      = fun network i =>
        train activation error network (inputs.row_values i) (targets.row_values i) := by
    funext network i
    exact train_batch_body activation error network inputs targets i
  have heq : train_batch activation error network inputs targets
      = train_each activation error network inputs targets := by
    unfold train_batch train_each
    simp only [bind]
    rw [hbody]
  obtain ⟨network', h⟩ := foldlM_total
    (fun (network : FeedForward_Network F input_size hidden_size output_size)
      (i : Fin point_count) =>
      train activation error network (inputs.row_values i) (targets.row_values i))
    (fun s i => train_total activation error s _ _) (List.finRange point_count) network
  exact ⟨network', heq.trans h, h⟩

/-- C5: for every network state and input, `predict` returns; afterwards both
weight matrices and `learning_rate` are identical to their values before the
call, and the returned vector equals the `activation_output` buffer after the
call. -/
theorem predict_keeps_weights (activation : ActivationPolicy F)
    (network : FeedForward_Network F input_size hidden_size output_size)
    (input : StdArray F input_size) :
    ∃ network' out, predict activation network input = some (network', out) ∧
      network'.weights_inputToHidden = network.weights_inputToHidden ∧
      network'.weights_hiddenToOutput = network.weights_hiddenToOutput ∧
      network'.learning_rate = network.learning_rate ∧
      out = network'.activation_output := by
  exact ⟨_, _, predict_eq activation network input, rfl, rfl, rfl, rfl⟩

/-- C6: for any two network states with the same two weight matrices (their
activation buffers and learning rates arbitrary) and the same input, `predict`
returns the same output on both and leaves all three activation buffers equal;
and calling `predict` again on the resulting state with the same input returns
the same output. -/
theorem predict_deterministic (activation : ActivationPolicy F)
    (network₁ network₂ : FeedForward_Network F input_size hidden_size output_size)
    (input : StdArray F input_size)
    (h₁ : network₁.weights_inputToHidden = network₂.weights_inputToHidden)
    (h₂ : network₁.weights_hiddenToOutput = network₂.weights_hiddenToOutput) :
    ∃ network₁' network₂' out,
      predict activation network₁ input = some (network₁', out) ∧
      predict activation network₂ input = some (network₂', out) ∧
      network₁'.activation_input = network₂'.activation_input ∧
      network₁'.activation_hidden = network₂'.activation_hidden ∧
      network₁'.activation_output = network₂'.activation_output ∧
      ∃ network₁'', predict activation network₁' input = some (network₁'', out) := by
  have hh : forward_hidden activation network₁ input = forward_hidden activation network₂ input := by
    unfold forward_hidden; rw [h₁]
  have ho : forward_output activation network₁ input = forward_output activation network₂ input := by
    unfold forward_output; rw [hh, h₂]
  have p₁ := predict_eq activation network₁ input
  have p₂ := predict_eq activation network₂ input
  rw [← ho] at p₂
  exact ⟨_, _, _, p₁, p₂, rfl, hh, rfl, _, predict_eq activation _ input⟩

/-- Witness of C6: `example_network` and `example_network_stale` have the same
weights and different buffers. -/
theorem predict_deterministic_witness :
    example_network.weights_inputToHidden = example_network_stale.weights_inputToHidden ∧
    example_network.weights_hiddenToOutput = example_network_stale.weights_hiddenToOutput ∧
    ∃ network₁' network₂' out,
      predict Identity_Activation example_network ![1, 10] = some (network₁', out) ∧
      predict Identity_Activation example_network_stale ![1, 10] = some (network₂', out) ∧
      network₁'.activation_input = network₂'.activation_input ∧
      network₁'.activation_hidden = network₂'.activation_hidden ∧
      network₁'.activation_output = network₂'.activation_output ∧
      ∃ network₁'', predict Identity_Activation network₁' ![1, 10] = some (network₁'', out) :=
  ⟨rfl, rfl, predict_deterministic Identity_Activation example_network example_network_stale
    ![1, 10] rfl rfl⟩

/-- C8: for every network state and target, `backprop` returns, and afterwards
the buffers `activation_input`, `activation_hidden` and `activation_output` and
the scalar `learning_rate` are identical to their values before the call. -/
theorem backprop_keeps_activations (activation : ActivationPolicy F) (error : ErrorPolicy F)
    (network : FeedForward_Network F input_size hidden_size output_size)
    (target : StdArray F output_size) :
    ∃ network', backprop activation error network target = some network' ∧
      network'.activation_input = network.activation_input ∧
      network'.activation_hidden = network.activation_hidden ∧
      network'.activation_output = network.activation_output ∧
      network'.learning_rate = network.learning_rate :=
  ⟨_, backprop_eq activation error network target, rfl, rfl, rfl, rfl⟩

end operations

/-! ## Output range of the logistic network -/

section output_range

theorem round_even_add (n : ℤ) (δ : ℝ) (h0 : 0 ≤ δ) (h1 : δ < 1 / 2) :
    round_even (n + δ) = n := by
  have hfl : ⌊(n : ℝ) + δ⌋ = n := by
    rw [Int.floor_int_add]
    have : ⌊δ⌋ = 0 := by rw [Int.floor_eq_zero_iff]; constructor <;> [exact h0; linarith]
    rw [this, add_zero]
  unfold round_even
  rw [hfl, if_pos (by linarith)]

theorem round_even_intCast (n : ℤ) : round_even (n : ℝ) = n := by
  have := round_even_add n 0 le_rfl (by norm_num)
  rwa [add_zero] at this

theorem round_even_bounds (y : ℝ) : ((round_even y : ℤ) : ℝ) ≤ y + 1 / 2 ∧ (⌊y⌋ : ℝ) ≤ round_even y := by
  have h1 := Int.floor_le y
  have h2 := Int.lt_floor_add_one y
  unfold round_even
  split_ifs with ha hb hc
  · constructor <;> [linarith; exact le_rfl]
  · constructor
    · push_cast; linarith
    · push_cast; linarith
  · constructor <;> [linarith; exact le_rfl]
  · constructor
    · push_cast; linarith
    · push_cast; linarith

theorem binary32_round_zero : binary32_round 0 = 0 := by
  unfold binary32_round
  rw [zero_div]
  have := round_even_intCast 0
  rw [Int.cast_zero] at this
  rw [this, Int.cast_zero, zero_mul]

theorem binary32_round_two_zpow (k : ℤ) (hk : -126 ≤ k) : binary32_round (2 ^ k) = 2 ^ k := by
  have hlog : Int.log 2 |(2 : ℝ) ^ k| = k := by
    rw [abs_of_pos (by positivity)]
    exact_mod_cast Int.log_zpow (R := ℝ) (b := 2) (by norm_num) k
  have hu : binary32_ulp_exp (2 ^ k) = k - 23 := by
    unfold binary32_ulp_exp
    rw [hlog, max_eq_left hk]
  unfold binary32_round
  rw [hu]
  have hq : (2 : ℝ) ^ k / 2 ^ (k - 23) = ((2 ^ 23 : ℤ) : ℝ) := by
    rw [← zpow_sub₀ (by norm_num : (2 : ℝ) ≠ 0)]
    have : k - (k - 23) = 23 := by ring
    rw [this]; norm_num
  rw [hq, round_even_intCast, ← hq]
  rw [div_mul_cancel₀]
  positivity

theorem of_real_zero : Binary32.of_real 0 = Binary32.finite 0 := by
  unfold Binary32.of_real
  rw [binary32_round_zero, if_pos]
  rw [abs_zero]; unfold binary32_max; norm_num

theorem of_real_two_zpow (k : ℤ) (hk : -126 ≤ k) (hk' : k ≤ 127) :
    Binary32.of_real (2 ^ k) = Binary32.finite (2 ^ k) := by
  unfold Binary32.of_real
  rw [binary32_round_two_zpow k hk, if_pos]
  rw [abs_of_pos (by positivity)]
  have h1 : (2 : ℝ) ^ k ≤ 2 ^ (127 : ℤ) := zpow_le_zpow_right₀ (by norm_num) hk'
  have h2 : (2 : ℝ) ^ (127 : ℤ) ≤ binary32_max := by unfold binary32_max; norm_num
  exact h1.trans h2

theorem exp_neg_128_bounds : 0 < Real.exp (-128) ∧ Real.exp (-128) ≤ 2 ^ (-128 : ℤ) := by
  refine ⟨Real.exp_pos _, ?_⟩
  have h2 : (2 : ℝ) ≤ Real.exp 1 := by
    have := Real.add_one_le_exp 1
    linarith
  have h128 : (2 : ℝ) ^ (128 : ℕ) ≤ Real.exp 128 := by
    have : Real.exp 128 = Real.exp 1 ^ (128 : ℕ) := by
      rw [← Real.exp_nat_mul]; norm_num
    rw [this]
    exact pow_le_pow_left₀ (by norm_num) h2 128
  rw [Real.exp_neg, zpow_neg]
  have hpos : (0 : ℝ) < 2 ^ (128 : ℕ) := by positivity
  have : (Real.exp 128)⁻¹ ≤ ((2 : ℝ) ^ (128 : ℕ))⁻¹ := inv_anti₀ hpos h128
  simpa using this

/-- Rounding a positive value below `2^-128`, deep in the subnormal range. -/
theorem binary32_round_tiny (x : ℝ) (h0 : 0 < x) (h1 : x ≤ 2 ^ (-128 : ℤ)) :
    0 ≤ binary32_round x ∧ binary32_round x ≤ 2 ^ (-127 : ℤ) := by
  have hlog : Int.log 2 |x| < -126 := by
    rw [abs_of_pos h0]
    rw [← Int.lt_zpow_iff_log_lt (by norm_num) h0]
    have : (2 : ℝ) ^ (-128 : ℤ) < ((2 : ℕ) : ℝ) ^ (-126 : ℤ) := by
      rw [Nat.cast_ofNat]
      exact zpow_lt_zpow_right₀ (by norm_num) (by norm_num)
    exact lt_of_le_of_lt h1 this
  have hu : binary32_ulp_exp x = -149 := by
    unfold binary32_ulp_exp
    rw [max_eq_right hlog.le]; norm_num
  unfold binary32_round
  rw [hu]
  have hb := round_even_bounds (x / 2 ^ (-149 : ℤ))
  have hpos : (0 : ℝ) < 2 ^ (-149 : ℤ) := by positivity
  have hq0 : 0 ≤ x / 2 ^ (-149 : ℤ) := by positivity
  have hfl : (0 : ℝ) ≤ ⌊x / 2 ^ (-149 : ℤ)⌋ := by exact_mod_cast Int.floor_nonneg.mpr hq0
  constructor
  · exact mul_nonneg (hfl.trans hb.2) hpos.le
  · have hq1 : x / 2 ^ (-149 : ℤ) ≤ 2 ^ (21 : ℤ) := by
      rw [div_le_iff₀ hpos, ← zpow_add₀ (by norm_num : (2 : ℝ) ≠ 0)]
      norm_num at h1 ⊢
      exact h1
    have hr : ((round_even (x / 2 ^ (-149 : ℤ)) : ℤ) : ℝ) ≤ 2 ^ (22 : ℤ) := by
      have : (2 : ℝ) ^ (21 : ℤ) + 1 / 2 ≤ 2 ^ (22 : ℤ) := by norm_num
      linarith [hb.1]
    calc ((round_even (x / 2 ^ (-149 : ℤ)) : ℤ) : ℝ) * 2 ^ (-149 : ℤ)
        ≤ 2 ^ (22 : ℤ) * 2 ^ (-149 : ℤ) := mul_le_mul_of_nonneg_right hr hpos.le
      _ = 2 ^ (-127 : ℤ) := by rw [← zpow_add₀ (by norm_num : (2 : ℝ) ≠ 0)]; norm_num

/-- Adding a value of at most `2^-127` to `1` is absorbed by the rounding. -/
theorem binary32_round_one_add (ε : ℝ) (h0 : 0 ≤ ε) (h1 : ε ≤ 2 ^ (-127 : ℤ)) :
    binary32_round (1 + ε) = 1 := by
  have hsmall : (2 : ℝ) ^ (-127 : ℤ) < 2 ^ (-25 : ℤ) :=
    zpow_lt_zpow_right₀ (by norm_num) (by norm_num)
  have h25 : (2 : ℝ) ^ (-25 : ℤ) * 2 ^ (23 : ℤ) = 1 / 4 := by
    rw [← zpow_add₀ (by norm_num : (2 : ℝ) ≠ 0)]; norm_num
  have hlt1 : ε < 1 := by
    have : (2 : ℝ) ^ (-25 : ℤ) < 1 := by
      have := zpow_lt_zpow_right₀ (by norm_num : (1 : ℝ) < 2) (by norm_num : (-25 : ℤ) < 0)
      simpa using this
    linarith
  have hpos : (0 : ℝ) < 1 + ε := by linarith
  have hlog : Int.log 2 |1 + ε| = 0 := by
    rw [abs_of_pos hpos]
    apply le_antisymm
    · have : Int.log 2 (1 + ε) < 1 := by
        rw [← Int.lt_zpow_iff_log_lt (by norm_num) hpos]
        norm_num; linarith
      omega
    · rw [← Int.zpow_le_iff_le_log (by norm_num) hpos]
      norm_num; exact h0
  have hu : binary32_ulp_exp (1 + ε) = -23 := by
    unfold binary32_ulp_exp
    rw [hlog]; norm_num
  unfold binary32_round
  rw [hu]
  have hq : (1 + ε) / 2 ^ (-23 : ℤ) = ((2 ^ 23 : ℤ) : ℝ) + ε * 2 ^ (23 : ℤ) := by
    rw [zpow_neg, div_inv_eq_mul]; push_cast; ring
  have hδ0 : 0 ≤ ε * 2 ^ (23 : ℤ) := by positivity
  have hδ1 : ε * 2 ^ (23 : ℤ) < 1 / 2 := by
    have : ε * 2 ^ (23 : ℤ) ≤ 2 ^ (-25 : ℤ) * 2 ^ (23 : ℤ) :=
      mul_le_mul_of_nonneg_right (by linarith) (by positivity)
    rw [h25] at this
    linarith
  rw [hq, round_even_add _ _ hδ0 hδ1]
  push_cast
  rw [zpow_neg]
  norm_num

theorem logistic_binary32_zero :
    (Logistic Binary32).activation (Binary32.finite 0) = Binary32.finite (1 / 2) := by
  have hexp : (HasExp.exp (-(Binary32.finite 0)) : Binary32) = Binary32.finite 1 := by
    show Binary32.of_real (Real.exp (-0)) = Binary32.finite 1
    rw [neg_zero, Real.exp_zero]
    have := of_real_two_zpow 0 (by norm_num) (by norm_num)
    rwa [zpow_zero] at this
  have hadd : (1 + Binary32.finite 1 : Binary32) = Binary32.finite 2 := by
    show Binary32.of_real (1 + 1) = Binary32.finite 2
    have := of_real_two_zpow 1 (by norm_num) (by norm_num)
    rw [zpow_one] at this
    rw [one_add_one_eq_two, this]
  have hdiv : (1 / Binary32.finite 2 : Binary32) = Binary32.finite (1 / 2) := by
    show (if (2 : ℝ) = 0 then Binary32.untracked else Binary32.of_real (1 / 2))
      = Binary32.finite (1 / 2)
    rw [if_neg (by norm_num)]
    have := of_real_two_zpow (-1) (by norm_num) (by norm_num)
    have h2 : (2 : ℝ) ^ (-1 : ℤ) = 1 / 2 := by norm_num
    rwa [h2] at this
  show (1 / (1 + HasExp.exp (-(Binary32.finite 0))) : Binary32) = Binary32.finite (1 / 2)
  rw [hexp, hadd, hdiv]

theorem logistic_binary32_saturates :
    (Logistic Binary32).activation (Binary32.finite 128) = Binary32.finite 1 := by
  obtain ⟨hx0, hx1⟩ := exp_neg_128_bounds
  obtain ⟨hr0, hr1⟩ := binary32_round_tiny _ hx0 hx1
  have hmax : (2 : ℝ) ^ (-127 : ℤ) ≤ binary32_max := by
    have h1 : (2 : ℝ) ^ (-127 : ℤ) ≤ 2 ^ (0 : ℤ) := zpow_le_zpow_right₀ (by norm_num) (by norm_num)
    have h2 : (2 : ℝ) ^ (0 : ℤ) ≤ binary32_max := by unfold binary32_max; norm_num
    exact h1.trans h2
  have hexp : (HasExp.exp (-(Binary32.finite 128)) : Binary32)
      = Binary32.finite (binary32_round (Real.exp (-128))) := by
    show Binary32.of_real (Real.exp (-128)) = _
    unfold Binary32.of_real
    rw [if_pos]
    rw [abs_of_nonneg hr0]
    exact hr1.trans hmax
  have hadd : (1 + Binary32.finite (binary32_round (Real.exp (-128))) : Binary32)
      = Binary32.finite 1 := by
    show Binary32.of_real (1 + binary32_round (Real.exp (-128))) = Binary32.finite 1
    unfold Binary32.of_real
    rw [binary32_round_one_add _ hr0 hr1, if_pos]
    rw [abs_one]; unfold binary32_max; norm_num
  have hdiv : (1 / Binary32.finite 1 : Binary32) = Binary32.finite 1 := by
    show (if (1 : ℝ) = 0 then Binary32.untracked else Binary32.of_real (1 / 1))
      = Binary32.finite 1
    rw [if_neg one_ne_zero, div_one]
    have := of_real_two_zpow 0 (by norm_num) (by norm_num)
    rwa [zpow_zero] at this
  show (1 / (1 + HasExp.exp (-(Binary32.finite 128))) : Binary32) = Binary32.finite 1
  rw [hexp, hadd, hdiv]

/-- C7, as stated, fails in `float` arithmetic: on the 1-1-1 network with
weights `0` and `256` (both finite) and the finite input `0`, `predict` returns
exactly `1`, which is not strictly less than 1.  The hidden activation is
`1/(1+exp(0)) = 0.5`, the output sum is `0.5 * 256 = 128`, `exp(-128)` is below
`2^-127`, `1 + exp(-128)` rounds to `1`, and `1/1 = 1`.  (The same values result
when the right-hand side of `Logistic::activation` is evaluated in `double`:
`1 + exp(-128)` rounds to `1` in binary64 as well.) -/
theorem predict_binary32_reaches_one :
    ∃ network' out,
      predict (Logistic Binary32) saturating_network (fun _ => Binary32.finite 0)
        = some (network', out) ∧
      out 0 = Binary32.finite 1 := by
  refine ⟨_, _, predict_eq _ _ _, ?_⟩
  have hmul0 : (Binary32.finite 0 * Binary32.finite 0 : Binary32) = Binary32.finite 0 := by
    show Binary32.of_real (0 * 0) = _
    rw [mul_zero, of_real_zero]
  have hadd0 : ((0 : Binary32) + Binary32.finite 0 : Binary32) = Binary32.finite 0 := by
    show Binary32.of_real (0 + 0) = _
    rw [add_zero, of_real_zero]
  have hmul : (Binary32.finite (1 / 2) * Binary32.finite 256 : Binary32)
      = Binary32.finite 128 := by
    show Binary32.of_real (1 / 2 * 256) = _
    have := of_real_two_zpow 7 (by norm_num) (by norm_num)
    have h7 : (2 : ℝ) ^ (7 : ℤ) = 128 := by norm_num
    rw [h7] at this
    rw [show (1 / 2 * 256 : ℝ) = 128 by norm_num, this]
  have hadd : ((0 : Binary32) + Binary32.finite 128 : Binary32) = Binary32.finite 128 := by
    show Binary32.of_real (0 + 128) = _
    have := of_real_two_zpow 7 (by norm_num) (by norm_num)
    have h7 : (2 : ℝ) ^ (7 : ℤ) = 128 := by norm_num
    rw [h7] at this
    rw [zero_add, this]
  have hhid : forward_hidden (Logistic Binary32) saturating_network
      (fun _ => Binary32.finite 0) 0 = Binary32.finite (1 / 2) := by
    show (Logistic Binary32).activation
      ((0 : Binary32) + Binary32.finite 0 * Binary32.finite 0) = _
    rw [hmul0, hadd0, logistic_binary32_zero]
  show (Logistic Binary32).activation
    ((0 : Binary32) + forward_hidden (Logistic Binary32) saturating_network
      (fun _ => Binary32.finite 0) 0 * Binary32.finite 256) = _
  rw [hhid, hmul, hadd, logistic_binary32_saturates]

/-- C7, amended: reading the arithmetic over the reals, with the Logistic
activation, for every network and every input, `predict` returns and every
entry of the returned vector is strictly greater than 0 and strictly less than
1; and the denominator `1 + exp(-k)` of the logistic function is never zero. -/
theorem predict_logistic_range_real {input_size hidden_size output_size : Nat}
    (network : FeedForward_Network ℝ input_size hidden_size output_size)
    (input : StdArray ℝ input_size) :
    (∃ network' out, predict (Logistic ℝ) network input = some (network', out) ∧
      ∀ j, 0 < out j ∧ out j < 1) ∧
    ∀ k : ℝ, (1 : ℝ) + HasExp.exp (-k) ≠ 0 := by
  have hden : ∀ k : ℝ, (1 : ℝ) < 1 + HasExp.exp (-k) := by
    intro k
    have : (0 : ℝ) < Real.exp (-k) := Real.exp_pos _
    show (1 : ℝ) < 1 + Real.exp (-k)
    linarith
  have hact : ∀ k : ℝ, 0 < (Logistic ℝ).activation k ∧ (Logistic ℝ).activation k < 1 := by
    intro k
    have h := hden k
    show 0 < 1 / (1 + HasExp.exp (-k)) ∧ 1 / (1 + HasExp.exp (-k)) < 1
    constructor
    · exact div_pos one_pos (by linarith)
    · rw [div_lt_one (by linarith)]; exact h
  refine ⟨⟨_, _, predict_eq _ _ _, fun j => hact _⟩, fun k => ?_⟩
  have := hden k
  linarith

end output_range

/-! ## The row view -/

/-- C11: for every `Array2D` with dimensions X and Y, every row index
`0 ≤ x < X` and every `0 ≤ y < Y`, the `y`-th element of the view returned by
`row(x)` is the same slot as `operator()(x, y)`: the view points into the same
buffer `data`, at the linear index of that slot, and reading it yields the
content of the slot; the `Y` elements of the view are the slots of row `x` and
none is a slot of another row. -/
theorem row_view {T : Type} {x_size y_size : Nat} (a : Array2D T x_size y_size)
    (x : Fin x_size) (y : Fin y_size) :
    ∃ s : Fin (x_size * y_size), a.operator_call x.val y.val = some s ∧
      (a.row x.val).mem = a.data ∧
      (a.row x.val).off + (y.val : Int) = (s.val : Int) ∧
      (a.row x.val).deref y.val = some (a.data s) ∧
      ∀ (x' : Fin x_size) (y' : Fin y_size), x' ≠ x →
        a.operator_call x'.val y'.val ≠ some s := by
  refine ⟨Array2D.slot x y, operator_call_slot a x y, rfl, ?_, deref_row a x y, ?_⟩
  · show ((x.val : Int) * (y_size : Int)) + (y.val : Int) = ((x.val * y_size + y.val : Nat) : Int)
    push_cast; ring
  · intro x' y' hx h
    rw [operator_call_slot] at h
    exact hx (slot_injective (Option.some.inj h)).1

/-! ## The policies over the reals -/

theorem logistic_activation_real (x : ℝ) :
    (Logistic ℝ).activation x = 1 / (1 + Real.exp (-x)) := rfl

theorem logistic_hasDerivAt (x : ℝ) :
    HasDerivAt (Logistic ℝ).activation
      ((Logistic ℝ).activation x * (1 - (Logistic ℝ).activation x)) x := by
  have hpos : (0 : ℝ) < 1 + Real.exp (-x) := by
    have := Real.exp_pos (-x); linarith
  have h1 : HasDerivAt (fun y : ℝ => 1 + Real.exp (-y)) (-Real.exp (-x)) x := by
    have := ((hasDerivAt_neg x).exp).const_add 1
    simpa using this
  have h2 := (hasDerivAt_const x (1 : ℝ)).div h1 hpos.ne'
  have heq : (Logistic ℝ).activation = fun y : ℝ => 1 / (1 + Real.exp (-y)) := rfl
  rw [heq]
  convert h2 using 1
  field_simp
  ring

/-- C13: reading the arithmetic over the reals, for every real `x`,
`Logistic::activation_dir` applied to the already-activated value
`Logistic::activation(x)` is the derivative of `Logistic::activation` at `x`:
`d/dx [1/(1+exp(-x))] = s*(1-s)` with `s = 1/(1+exp(-x))`. -/
theorem logistic_activation_dir_is_derivative (x : ℝ) :
    HasDerivAt (Logistic ℝ).activation
        ((Logistic ℝ).activation_dir ((Logistic ℝ).activation x)) x ∧
      deriv (fun y : ℝ => 1 / (1 + Real.exp (-y))) x
        = (1 / (1 + Real.exp (-x))) * (1 - 1 / (1 + Real.exp (-x))) :=
  ⟨logistic_hasDerivAt x, (logistic_hasDerivAt x).deriv⟩

theorem squared_error_hasDerivAt (target result : ℝ) :
    HasDerivAt (fun r : ℝ => (Squared_Error ℝ).error target r) (-(target - result)) result := by
  have h1 : HasDerivAt (fun r : ℝ => target - r) (-1) result := by
    simpa using (hasDerivAt_id result).const_sub target
  have h2 := ((h1.const_mul (1 / 2 : ℝ)).mul h1)
  have heq : (fun r : ℝ => (Squared_Error ℝ).error target r)
      = fun r : ℝ => 1 / 2 * (target - r) * (target - r) := rfl
  rw [heq]
  convert h2 using 1
  ring

/-- C16, as stated, fails: for target `1` and result `0` the derivative of
`error(1, result)` with respect to `result` is `-1`, while `error_dir(1, 0)` is
`1`. -/
theorem error_dir_is_not_the_derivative :
    HasDerivAt (fun r : ℝ => (Squared_Error ℝ).error 1 r) (-1) 0 ∧
      (Squared_Error ℝ).error_dir 1 0 = 1 ∧
      deriv (fun r : ℝ => (Squared_Error ℝ).error 1 r) 0 ≠ (Squared_Error ℝ).error_dir 1 0 := by
  have h : HasDerivAt (fun r : ℝ => (Squared_Error ℝ).error 1 r) (-1) 0 := by
    have := squared_error_hasDerivAt 1 0
    simpa using this
  have hd : (Squared_Error ℝ).error_dir 1 0 = (1 : ℝ) := by
    show (1 : ℝ) - 0 = 1
    norm_num
  refine ⟨h, hd, ?_⟩
  rw [h.deriv, hd]
  norm_num

/-- C16, amended: reading the arithmetic over the reals, for Squared_Error,
`error(target, result) = 0.5*(target-result)^2` and, for every target and
result, `error_dir(target, result)` is the negative of the derivative of
`error(target, result)` with respect to `result`. -/
theorem error_dir_is_negated_derivative (target result : ℝ) :
    (Squared_Error ℝ).error target result = 0.5 * (target - result) ^ 2 ∧
      HasDerivAt (fun r : ℝ => (Squared_Error ℝ).error target r)
        (-(Squared_Error ℝ).error_dir target result) result := by
  refine ⟨?_, squared_error_hasDerivAt target result⟩
  show 1 / 2 * (target - result) * (target - result) = 0.5 * (target - result) ^ 2
  norm_num
  ring

/-! ## Single-example training -/

section single_example
variable {F : Type} [Zero F] [Add F] [Mul F]
variable {input_size hidden_size output_size : Nat}

theorem array2D_ext_get {T : Type} {X Y : Nat} {a b : Array2D T X Y}
    (h : ∀ x y, a.get x y = b.get x y) : a = b := by
  cases a with
  | mk da =>
    cases b with
    | mk db =>
      congr 1
      funext s
      obtain ⟨x, y, hxy⟩ := slot_surjective s
      have := h x y
      unfold Array2D.get at this
      rw [hxy] at this
      exact this

theorem train_eq (activation : ActivationPolicy F) (error : ErrorPolicy F)
    (network : FeedForward_Network F input_size hidden_size output_size)
    (input : StdArray F input_size) (target : StdArray F output_size) :
    train activation error network input target
      = some (backprop_state activation error (forward_state activation network input) target) := by
  unfold train
  rw [calculate_activation_eq]
  simp only [bind, Option.some_bind]
  rw [backprop_eq]
  rfl

end single_example

/-! ## Claims read over the reals -/

section real

variable {input_size hidden_size output_size : Nat}

theorem weighted_sum_zero_left {n : Nat} (w : Fin n → ℝ) :
    weighted_sum n (fun _ => (0 : ℝ)) w = 0 := by
  rw [weighted_sum_eq_sum]
  simp

/-- C18: reading the arithmetic over the reals, for every network state and
target such that `activation_output[i] = target[i]` for every output unit `i`,
`backprop` with Squared_Error returns and leaves both weight matrices exactly
unchanged, for any learning rate and any activation policy: all output deltas
and all hidden deltas are zero. -/
theorem backprop_fixed_point (activation : ActivationPolicy ℝ)
    (network : FeedForward_Network ℝ input_size hidden_size output_size)
    (target : StdArray ℝ output_size)
    (h : ∀ i, network.activation_output i = target i) :
    ∃ network', backprop activation (Squared_Error ℝ) network target = some network' ∧
      network'.weights_inputToHidden = network.weights_inputToHidden ∧
      network'.weights_hiddenToOutput = network.weights_hiddenToOutput ∧
      (∀ i, delta_out activation (Squared_Error ℝ) network target i = 0) ∧
      (∀ i, delta_hidden activation (Squared_Error ℝ) network target i = 0) := by
  have hout : delta_out activation (Squared_Error ℝ) network target = fun _ => 0 := by
    funext i
    show (target i - network.activation_output i) * _ = 0
    rw [h i, sub_self, zero_mul]
  have hhid : delta_hidden activation (Squared_Error ℝ) network target = fun _ => 0 := by
    funext i
    unfold delta_hidden
    rw [hout, weighted_sum_zero_left, zero_mul]
  refine ⟨_, backprop_eq activation (Squared_Error ℝ) network target, ?_, ?_, ?_, ?_⟩
  · apply array2D_ext_get
    intro k i
    show (updated_weights network.weights_inputToHidden _).get k i = _
    rw [updated_weights_get, hhid]
    simp
  · apply array2D_ext_get
    intro k i
    show (updated_weights network.weights_hiddenToOutput _).get k i = _
    rw [updated_weights_get, hout]
    simp
  · intro i; rw [hout]
  · intro i; rw [hhid]

/-- Witness of C18: in `fixed_point_network` the output buffer equals the target
`1/2`. -/
theorem backprop_fixed_point_witness :
    (∀ i, fixed_point_network.activation_output i = (fun _ => (1 / 2 : ℝ)) i) ∧
    ∃ network', backprop (Logistic ℝ) (Squared_Error ℝ) fixed_point_network (fun _ => 1 / 2)
        = some network' ∧
      network'.weights_inputToHidden = fixed_point_network.weights_inputToHidden ∧
      network'.weights_hiddenToOutput = fixed_point_network.weights_hiddenToOutput ∧
      (∀ i, delta_out (Logistic ℝ) (Squared_Error ℝ) fixed_point_network
        (fun _ => 1 / 2) i = 0) ∧
      (∀ i, delta_hidden (Logistic ℝ) (Squared_Error ℝ) fixed_point_network
        (fun _ => 1 / 2) i = 0) :=
  ⟨fun _ => rfl,
    backprop_fixed_point (Logistic ℝ) fixed_point_network (fun _ => 1 / 2) (fun _ => rfl)⟩

theorem logistic_zero : (Logistic ℝ).activation 0 = 1 / 2 := by
  show (1 : ℝ) / (1 + Real.exp (-0)) = 1 / 2
  rw [neg_zero, Real.exp_zero]
  norm_num

/-- C19: reading the arithmetic over the reals, for every network state and
target, a single-example `train` call on the all-zero input vector returns,
sets every hidden activation to `activation(0)` (which is `1/2` for Logistic)
regardless of the weights, and leaves `weights_inputToHidden` exactly unchanged
(and `learning_rate` too); of the weights only `weights_hiddenToOutput` may
change. -/
theorem train_zero_input (activation : ActivationPolicy ℝ) (error : ErrorPolicy ℝ)
    (network : FeedForward_Network ℝ input_size hidden_size output_size)
    (target : StdArray ℝ output_size) :
    (∃ network', train activation error network (fun _ => 0) target = some network' ∧
      (∀ j, network'.activation_hidden j = activation.activation 0) ∧
      network'.weights_inputToHidden = network.weights_inputToHidden ∧
      network'.learning_rate = network.learning_rate) ∧
    (Logistic ℝ).activation 0 = 1 / 2 := by
  refine ⟨⟨_, train_eq activation error network (fun _ => 0) target, ?_, ?_, rfl⟩, logistic_zero⟩
  · intro j
    show activation.activation (weighted_sum input_size (fun _ => (0 : ℝ)) _) = _
    rw [weighted_sum_zero_left]
  · apply array2D_ext_get
    intro k i
    show (updated_weights network.weights_inputToHidden _).get k i = _
    rw [updated_weights_get]
    show _ + _ * (0 : ℝ) = _
    rw [mul_zero, add_zero]

end real

/-! ## Randomization -/

section randomize_lemmas

variable {F : Type} {input_size hidden_size output_size : Nat}

theorem assign_slot {T : Type} {X Y : Nat} (a : Array2D T X Y) (x : Fin X) (y : Fin Y) (v : T) :
    a.assign x.val y.val v = some ⟨Function.update a.data (Array2D.slot x y) v⟩ := by
  unfold Array2D.assign
  rw [operator_call_slot]; rfl

/-- One row of `randomize` run from two states with the same engine and
distribution leaves the same engine and distribution, and the same content in
every slot that held the same content before or was written. -/
theorem fill_row_agree {X Y : Nat} (random : RandomSource F) (i : Fin X) (lj : List (Fin Y))
    (a b : Array2D F X Y × random.Distribution × random.Engine) (h : a.2 = b.2) :
    (lj.foldl (fun state j =>
        ((⟨Function.update state.1.data (Array2D.slot i j)
            (random.draw state.2.1 state.2.2).1⟩ : Array2D F X Y),
          (random.draw state.2.1 state.2.2).2)) a).2
      = (lj.foldl (fun state j =>
        ((⟨Function.update state.1.data (Array2D.slot i j)
            (random.draw state.2.1 state.2.2).1⟩ : Array2D F X Y),
          (random.draw state.2.1 state.2.2).2)) b).2 ∧
    ∀ s, (a.1.data s = b.1.data s ∨ ∃ j ∈ lj, s = Array2D.slot i j) →
      (lj.foldl (fun state j =>
        ((⟨Function.update state.1.data (Array2D.slot i j)
            (random.draw state.2.1 state.2.2).1⟩ : Array2D F X Y),
          (random.draw state.2.1 state.2.2).2)) a).1.data s
      = (lj.foldl (fun state j =>
        ((⟨Function.update state.1.data (Array2D.slot i j)
            (random.draw state.2.1 state.2.2).1⟩ : Array2D F X Y),
          (random.draw state.2.1 state.2.2).2)) b).1.data s := by
  induction lj generalizing a b with
  | nil =>
    refine ⟨h, fun s hs => ?_⟩
    rcases hs with hs | ⟨j, hj, _⟩
    · exact hs
    · cases hj
  | cons j lj ih =>
    simp only [List.foldl_cons]
    have h' := ih
      ((⟨Function.update a.1.data (Array2D.slot i j) (random.draw a.2.1 a.2.2).1⟩ :
        Array2D F X Y), (random.draw a.2.1 a.2.2).2)
      ((⟨Function.update b.1.data (Array2D.slot i j) (random.draw b.2.1 b.2.2).1⟩ :
        Array2D F X Y), (random.draw b.2.1 b.2.2).2)
      (by rw [h])
    refine ⟨h'.1, fun s hs => h'.2 s ?_⟩
    by_cases hsj : s = Array2D.slot i j
    · left
      subst hsj
      simp only [Function.update_same]
      rw [h]
    · rcases hs with hs | ⟨j', hj', hs'⟩
      · left
        simp only [Function.update_noteq hsj]
        exact hs
      · rcases List.mem_cons.mp hj' with hj'' | hj''
        · exact absurd (hj'' ▸ hs') hsj
        · exact Or.inr ⟨j', hj'', hs'⟩

/-- The loops of `randomize` on one matrix, run from two states with the same
engine and distribution, leave the same engine and distribution and the same
matrix, whatever the two matrices held before. -/
theorem fill_random_agree {X Y : Nat} (random : RandomSource F)
    (a b : Array2D F X Y × random.Distribution × random.Engine) (h : a.2 = b.2) :
    fill_random random a = fill_random random b := by
  have key : ∀ (li : List (Fin X))
      (a b : Array2D F X Y × random.Distribution × random.Engine), a.2 = b.2 →
      (li.foldl (fun state i => (List.finRange Y).foldl (fun state j =>
        ((⟨Function.update state.1.data (Array2D.slot i j)
            (random.draw state.2.1 state.2.2).1⟩ : Array2D F X Y),
          (random.draw state.2.1 state.2.2).2)) state) a).2
      = (li.foldl (fun state i => (List.finRange Y).foldl (fun state j =>
        ((⟨Function.update state.1.data (Array2D.slot i j)
            (random.draw state.2.1 state.2.2).1⟩ : Array2D F X Y),
          (random.draw state.2.1 state.2.2).2)) state) b).2 ∧
      ∀ s, (a.1.data s = b.1.data s ∨ ∃ i ∈ li, ∃ j : Fin Y, s = Array2D.slot i j) →
        (li.foldl (fun state i => (List.finRange Y).foldl (fun state j =>
          ((⟨Function.update state.1.data (Array2D.slot i j)
              (random.draw state.2.1 state.2.2).1⟩ : Array2D F X Y),
            (random.draw state.2.1 state.2.2).2)) state) a).1.data s
        = (li.foldl (fun state i => (List.finRange Y).foldl (fun state j =>
          ((⟨Function.update state.1.data (Array2D.slot i j)
              (random.draw state.2.1 state.2.2).1⟩ : Array2D F X Y),
            (random.draw state.2.1 state.2.2).2)) state) b).1.data s := by
    intro li
    induction li with
    | nil =>
      intro a b h
      refine ⟨h, fun s hs => ?_⟩
      rcases hs with hs | ⟨i, hi, _⟩
      · exact hs
      · cases hi
    | cons i li ih =>
      intro a b h
      simp only [List.foldl_cons]
      have hrow := fill_row_agree random i (List.finRange Y) a b h
      have h' := ih _ _ hrow.1
      refine ⟨h'.1, fun s hs => h'.2 s ?_⟩
      rcases hs with hs | ⟨i', hi', j, hs'⟩
      · exact Or.inl (hrow.2 s (Or.inl hs))
      · rcases List.mem_cons.mp hi' with hi'' | hi''
        · subst hi''
          exact Or.inl (hrow.2 s (Or.inr ⟨j, List.mem_finRange j, hs'⟩))
        · exact Or.inr ⟨i', hi'', j, hs'⟩
  obtain ⟨h2, h1⟩ := key (List.finRange X) a b h
  have hdata : (fill_random random a).1.data = (fill_random random b).1.data := by
    funext s
    obtain ⟨x, y, hxy⟩ := slot_surjective s
    exact h1 s (Or.inr ⟨x, List.mem_finRange x, y, hxy.symm⟩)
  have h1' : (fill_random random a).1 = (fill_random random b).1 := by
    cases hA : (fill_random random a).1 with
    | mk da =>
      cases hB : (fill_random random b).1 with
      | mk db =>
        rw [hA, hB] at hdata
        exact congrArg Array2D.mk hdata
  exact Prod.ext h1' h2

/-- Closed form of `randomize`: it returns, and both matrices are the result of
the filling loops started from the default engine. -/
theorem randomize_eq (random : RandomSource F)
    (network : FeedForward_Network F input_size hidden_size output_size) :
    randomize random network
      = some { network with
          weights_inputToHidden := (fill_random random (network.weights_inputToHidden,
            random.normal_distribution, random.default_engine)).1
          weights_hiddenToOutput := (fill_random random (network.weights_hiddenToOutput,
            (fill_random random (network.weights_inputToHidden,
              random.normal_distribution, random.default_engine)).2)).1 } := by
  unfold randomize
  simp only [bind, Option.bind_eq_some]
  refine ⟨({ network with
      weights_inputToHidden := (fill_random random (network.weights_inputToHidden,
        random.normal_distribution, random.default_engine)).1 },
      (fill_random random (network.weights_inputToHidden,
        random.normal_distribution, random.default_engine)).2), ?_,
    ({ network with
      weights_inputToHidden := (fill_random random (network.weights_inputToHidden,
        random.normal_distribution, random.default_engine)).1
      weights_hiddenToOutput := (fill_random random (network.weights_hiddenToOutput,
        (fill_random random (network.weights_inputToHidden,
          random.normal_distribution, random.default_engine)).2)).1 },
      (fill_random random (network.weights_hiddenToOutput,
        (fill_random random (network.weights_inputToHidden,
          random.normal_distribution, random.default_engine)).2)).2), ?_, rfl⟩
  · refine foldlM_lift
      (fun (st : Array2D F input_size hidden_size × random.Distribution × random.Engine) =>
        ({ network with weights_inputToHidden := st.1 }, st.2)) _
      (fun st i => (List.finRange hidden_size).foldl (fun state j =>
        (⟨Function.update state.1.data (Array2D.slot i j)
            (random.draw state.2.1 state.2.2).1⟩,
          (random.draw state.2.1 state.2.2).2)) st)
      (List.finRange input_size) ?_
      (network.weights_inputToHidden, random.normal_distribution, random.default_engine)
    intro st i _
    refine foldlM_lift
      (fun (st : Array2D F input_size hidden_size × random.Distribution × random.Engine) =>
        ({ network with weights_inputToHidden := st.1 }, st.2)) _
      (fun state j =>
        (⟨Function.update state.1.data (Array2D.slot i j)
            (random.draw state.2.1 state.2.2).1⟩,
          (random.draw state.2.1 state.2.2).2))
      (List.finRange hidden_size) ?_ st
    intro st j _
    simp only [assign_slot]; rfl
  · refine foldlM_lift
      (fun (st : Array2D F hidden_size output_size × random.Distribution × random.Engine) =>
        ({ network with
          weights_inputToHidden := (fill_random random (network.weights_inputToHidden,
            random.normal_distribution, random.default_engine)).1
          weights_hiddenToOutput := st.1 }, st.2)) _
      (fun st i => (List.finRange output_size).foldl (fun state j =>
        (⟨Function.update state.1.data (Array2D.slot i j)
            (random.draw state.2.1 state.2.2).1⟩,
          (random.draw state.2.1 state.2.2).2)) st)
      (List.finRange hidden_size) ?_
      (network.weights_hiddenToOutput, (fill_random random (network.weights_inputToHidden,
        random.normal_distribution, random.default_engine)).2)
    intro st i _
    refine foldlM_lift
      (fun (st : Array2D F hidden_size output_size × random.Distribution × random.Engine) =>
        ({ network with
          weights_inputToHidden := (fill_random random (network.weights_inputToHidden,
            random.normal_distribution, random.default_engine)).1
          weights_hiddenToOutput := st.1 }, st.2)) _
      (fun state j =>
        (⟨Function.update state.1.data (Array2D.slot i j)
            (random.draw state.2.1 state.2.2).1⟩,
          (random.draw state.2.1 state.2.2).2))
      (List.finRange output_size) ?_ st
    intro st j _
    simp only [assign_slot]; rfl

end randomize_lemmas

/-- C12, as stated, fails: two consecutive `randomize` calls, the second on the
network the first one left, write the same weights.  With the engine
`minstd_rand0` both calls write `16807, 282475249, 1622650073, 984943658` into
`weights_inputToHidden` and `1144108930, 470211272` into
`weights_hiddenToOutput`: each call constructs its own engine, which starts
from the default seed. -/
theorem randomize_twice_same_weights :
    ((randomize minstd_rand0 example_network).bind fun first =>
      (randomize minstd_rand0 first).map fun second =>
        ((List.ofFn first.weights_inputToHidden.data,
            List.ofFn first.weights_hiddenToOutput.data),
          (List.ofFn second.weights_inputToHidden.data,
            List.ofFn second.weights_hiddenToOutput.data)))
      = some (([16807, 282475249, 1622650073, 984943658], [1144108930, 470211272]),
          ([16807, 282475249, 1622650073, 984943658], [1144108930, 470211272])) := by
  decide

/-- C12, amended: `randomize` is deterministic: for every random source, two
`randomize` calls on networks of the same shape return and produce identical
weight matrices, whatever the two networks held before; each call
default-constructs its engine, which starts from the same seed, and overwrites
every weight. -/
theorem randomize_deterministic {F : Type} {input_size hidden_size output_size : Nat}
    (random : RandomSource F)
    (network₁ network₂ : FeedForward_Network F input_size hidden_size output_size) :
    ∃ network₁' network₂',
      randomize random network₁ = some network₁' ∧
      randomize random network₂ = some network₂' ∧
      network₁'.weights_inputToHidden = network₂'.weights_inputToHidden ∧
      network₁'.weights_hiddenToOutput = network₂'.weights_hiddenToOutput := by
  have h1 := fill_random_agree random
    (network₁.weights_inputToHidden, random.normal_distribution, random.default_engine)
    (network₂.weights_inputToHidden, random.normal_distribution, random.default_engine) rfl
  have h2 := fill_random_agree random
    (network₁.weights_hiddenToOutput, (fill_random random (network₁.weights_inputToHidden,
      random.normal_distribution, random.default_engine)).2)
    (network₂.weights_hiddenToOutput, (fill_random random (network₂.weights_inputToHidden,
      random.normal_distribution, random.default_engine)).2) (by rw [h1])
  refine ⟨_, _, randomize_eq random network₁, randomize_eq random network₂, ?_, ?_⟩
  · exact congrArg Prod.fst h1
  · exact congrArg Prod.fst h2

/-! ## The weight update as a gradient step -/

section gradient

variable {input_size hidden_size output_size : Nat}

theorem get_update_slot {T : Type} {X Y : Nat} (a : Array2D T X Y) (k : Fin X) (i : Fin Y)
    (w : T) (x : Fin X) (y : Fin Y) :
    (⟨Function.update a.data (Array2D.slot k i) w⟩ : Array2D T X Y).get x y
      = if x = k ∧ y = i then w else a.get x y := by
  unfold Array2D.get
  by_cases h : x = k ∧ y = i
  · obtain ⟨h1, h2⟩ := h
    subst h1; subst h2
    simp
  · have hne : (Array2D.slot x y : Fin (X * Y)) ≠ Array2D.slot k i :=
      fun hs => h (slot_injective hs)
    simp only [Function.update_noteq hne, if_neg h]

theorem total_error_eq_sum (error : ErrorPolicy ℝ) (target output : StdArray ℝ output_size) :
    total_error error target output = ∑ j, error.error (target j) (output j) := by
  unfold total_error
  have h : ∀ (l : List (Fin output_size)) (z : ℝ),
      l.foldl (fun acc j => acc + error.error (target j) (output j)) z
        = z + (l.map fun j => error.error (target j) (output j)).sum := by
    intro l
    induction l with
    | nil => intro z; simp
    | cons i l ih => intro z; rw [List.foldl_cons, ih, List.map_cons, List.sum_cons, add_assoc]
  rw [h, zero_add, Fin.sum_univ_def]

/-- Derivative of a weighted sum in one of its weights. -/
theorem hasDerivAt_sum_update {n : Nat} (c v : Fin n → ℝ) (k : Fin n) (x : ℝ) :
    HasDerivAt (fun w : ℝ => ∑ h, c h * (if h = k then w else v h)) (c k) x := by
  have hterm : ∀ h ∈ (Finset.univ : Finset (Fin n)),
      HasDerivAt (fun w : ℝ => c h * (if h = k then w else v h)) (if h = k then c h else 0) x := by
    intro h _
    by_cases hk : h = k
    · simp only [if_pos hk]
      simpa using (hasDerivAt_id x).const_mul (c h)
    · simp only [if_neg hk]
      exact hasDerivAt_const x _
  have hsum := HasDerivAt.sum hterm
  have hval : (∑ h : Fin n, if h = k then c h else 0) = c k := by
    rw [Finset.sum_ite_eq' Finset.univ k c]
    simp
  rw [hval] at hsum
  convert hsum using 1

/-- Derivative of the total squared error of logistic outputs whose
pre-activation sums `s j` depend on a real parameter. -/
theorem hasDerivAt_loss_of_sums (target : StdArray ℝ output_size)
    (s : Fin output_size → ℝ → ℝ) (s' : Fin output_size → ℝ) (x : ℝ)
    (hs : ∀ j, HasDerivAt (s j) (s' j) x) :
    HasDerivAt
      (fun w : ℝ => ∑ j, (Squared_Error ℝ).error (target j) ((Logistic ℝ).activation (s j w)))
      (∑ j, -(target j - (Logistic ℝ).activation (s j x))
        * ((Logistic ℝ).activation (s j x) * (1 - (Logistic ℝ).activation (s j x)) * s' j)) x := by
  have hterm : ∀ j ∈ (Finset.univ : Finset (Fin output_size)),
      HasDerivAt
        (fun w : ℝ => (Squared_Error ℝ).error (target j) ((Logistic ℝ).activation (s j w)))
        (-(target j - (Logistic ℝ).activation (s j x))
          * ((Logistic ℝ).activation (s j x) * (1 - (Logistic ℝ).activation (s j x)) * s' j))
        x := by
    intro j _
    have ho : HasDerivAt (fun w : ℝ => (Logistic ℝ).activation (s j w))
        ((Logistic ℝ).activation (s j x) * (1 - (Logistic ℝ).activation (s j x)) * s' j) x :=
      (logistic_hasDerivAt (s j x)).comp x (hs j)
    exact (squared_error_hasDerivAt (target j) ((Logistic ℝ).activation (s j x))).comp x ho
  have hsum := HasDerivAt.sum hterm
  convert hsum using 1

/-- Setting a weight to the value it has changes nothing. -/
theorem with_hiddenToOutput_self {F : Type} {input_size hidden_size output_size : Nat}
    (network : FeedForward_Network F input_size hidden_size output_size)
    (k : Fin hidden_size) (i : Fin output_size) :
    with_hiddenToOutput network k i (network.weights_hiddenToOutput.get k i) = network := by
  unfold with_hiddenToOutput Array2D.get
  rw [Function.update_eq_self]

/-- Setting a weight to the value it has changes nothing. -/
theorem with_inputToHidden_self {F : Type} {input_size hidden_size output_size : Nat}
    (network : FeedForward_Network F input_size hidden_size output_size)
    (k : Fin input_size) (i : Fin hidden_size) :
    with_inputToHidden network k i (network.weights_inputToHidden.get k i) = network := by
  unfold with_inputToHidden Array2D.get
  rw [Function.update_eq_self]

/-- The loss as a function of one hidden-to-output weight. -/
theorem loss_with_hiddenToOutput
    (network : FeedForward_Network ℝ input_size hidden_size output_size)
    (input : StdArray ℝ input_size) (target : StdArray ℝ output_size)
    (k : Fin hidden_size) (i : Fin output_size) (w : ℝ) :
    loss (Logistic ℝ) (Squared_Error ℝ) (with_hiddenToOutput network k i w) input target
      = ∑ j, (Squared_Error ℝ).error (target j) ((Logistic ℝ).activation
          (if j = i then
            ∑ h, forward_hidden (Logistic ℝ) network input h
              * (if h = k then w else network.weights_hiddenToOutput.get h i)
          else
            ∑ h, forward_hidden (Logistic ℝ) network input h
              * network.weights_hiddenToOutput.get h j)) := by
  unfold loss
  rw [total_error_eq_sum]
  refine Finset.sum_congr rfl fun j _ => ?_
  have hsum : weighted_sum hidden_size (forward_hidden (Logistic ℝ) network input)
      (fun h => (⟨Function.update network.weights_hiddenToOutput.data (Array2D.slot k i) w⟩ :
        Array2D ℝ hidden_size output_size).get h j)
      = if j = i then
          ∑ h, forward_hidden (Logistic ℝ) network input h
            * (if h = k then w else network.weights_hiddenToOutput.get h i)
        else
          ∑ h, forward_hidden (Logistic ℝ) network input h
            * network.weights_hiddenToOutput.get h j := by
    rw [weighted_sum_eq_sum]
    by_cases hj : j = i
    · subst hj
      rw [if_pos rfl]
      refine Finset.sum_congr rfl fun h _ => ?_
      rw [get_update_slot]
      simp
    · rw [if_neg hj]
      refine Finset.sum_congr rfl fun h _ => ?_
      rw [get_update_slot]
      simp [hj]
  show (Squared_Error ℝ).error (target j) ((Logistic ℝ).activation
    (weighted_sum hidden_size (forward_hidden (Logistic ℝ) network input)
      (fun h => (⟨Function.update network.weights_hiddenToOutput.data (Array2D.slot k i) w⟩ :
        Array2D ℝ hidden_size output_size).get h j))) = _
  rw [hsum]

/-- C14: reading the arithmetic over the reals, with Logistic and Squared_Error,
for every weights, input, target, hidden unit `k` and output unit `i`, one
single-example `train` call returns, the total loss
`L = sum over output units j of error(target[j], output[j])` of the forward
pass is differentiable in `weights_hiddenToOutput(k,i)` at the pre-update
weights (setting the weight to its pre-update value gives back the network),
and the increment that the call adds to `weights_hiddenToOutput(k,i)` equals
`-learning_rate` times that partial derivative. -/
theorem hidden_to_output_update_is_gradient_step
    (network : FeedForward_Network ℝ input_size hidden_size output_size)
    (input : StdArray ℝ input_size) (target : StdArray ℝ output_size)
    (k : Fin hidden_size) (i : Fin output_size) :
    ∃ network' gradient,
      train (Logistic ℝ) (Squared_Error ℝ) network input target = some network' ∧
      HasDerivAt
        (fun w : ℝ =>
          loss (Logistic ℝ) (Squared_Error ℝ) (with_hiddenToOutput network k i w) input target)
        gradient (network.weights_hiddenToOutput.get k i) ∧
      network'.weights_hiddenToOutput.get k i - network.weights_hiddenToOutput.get k i
        = -network.learning_rate * gradient ∧
      with_hiddenToOutput network k i (network.weights_hiddenToOutput.get k i) = network := by
  suffices hmain : ∃ network' gradient,
      train (Logistic ℝ) (Squared_Error ℝ) network input target = some network' ∧
      HasDerivAt
        (fun w : ℝ =>
          loss (Logistic ℝ) (Squared_Error ℝ) (with_hiddenToOutput network k i w) input target)
        gradient (network.weights_hiddenToOutput.get k i) ∧
      network'.weights_hiddenToOutput.get k i - network.weights_hiddenToOutput.get k i
        = -network.learning_rate * gradient by
    obtain ⟨network', gradient, h1, h2, h3⟩ := hmain
    exact ⟨network', gradient, h1, h2, h3, with_hiddenToOutput_self network k i⟩
  have hs : ∀ j : Fin output_size, HasDerivAt
      (fun w : ℝ =>
        if j = i then
          ∑ h, forward_hidden (Logistic ℝ) network input h
            * (if h = k then w else network.weights_hiddenToOutput.get h i)
        else
          ∑ h, forward_hidden (Logistic ℝ) network input h
            * network.weights_hiddenToOutput.get h j)
      (if j = i then forward_hidden (Logistic ℝ) network input k else 0)
      (network.weights_hiddenToOutput.get k i) := by
    intro j
    by_cases hj : j = i
    · simp only [if_pos hj]
      exact hasDerivAt_sum_update _ _ k _
    · simp only [if_neg hj]
      exact hasDerivAt_const _ _
  have hL := hasDerivAt_loss_of_sums target _ _ _ hs
  have hfun : (fun w : ℝ =>
      loss (Logistic ℝ) (Squared_Error ℝ) (with_hiddenToOutput network k i w) input target)
      = fun w : ℝ => ∑ j, (Squared_Error ℝ).error (target j) ((Logistic ℝ).activation
          (if j = i then
            ∑ h, forward_hidden (Logistic ℝ) network input h
              * (if h = k then w else network.weights_hiddenToOutput.get h i)
          else
            ∑ h, forward_hidden (Logistic ℝ) network input h
              * network.weights_hiddenToOutput.get h j)) := by
    funext w
    exact loss_with_hiddenToOutput network input target k i w
  rw [← hfun] at hL
  refine ⟨_, _, train_eq (Logistic ℝ) (Squared_Error ℝ) network input target, hL, ?_⟩
  -- the pre-activation sums at the pre-update weight are those of the forward pass
  have hsum : ∀ j : Fin output_size,
      (if j = i then
          ∑ h, forward_hidden (Logistic ℝ) network input h
            * (if h = k then network.weights_hiddenToOutput.get k i
                else network.weights_hiddenToOutput.get h i)
        else
          ∑ h, forward_hidden (Logistic ℝ) network input h
            * network.weights_hiddenToOutput.get h j)
        = weighted_sum hidden_size (forward_hidden (Logistic ℝ) network input)
            (fun h => network.weights_hiddenToOutput.get h j) := by
    intro j
    rw [weighted_sum_eq_sum]
    by_cases hj : j = i
    · subst hj
      rw [if_pos rfl]
      refine Finset.sum_congr rfl fun h _ => ?_
      by_cases hk : h = k
      · subst hk; simp
      · simp [hk]
    · rw [if_neg hj]
  simp only [hsum]
  show (updated_weights network.weights_hiddenToOutput _).get k i - _ = _
  rw [updated_weights_get]
  simp only [mul_ite, mul_zero, Finset.sum_ite_eq', Finset.mem_univ, if_true]
  show network.weights_hiddenToOutput.get k i
      + network.learning_rate
        * ((target i - forward_output (Logistic ℝ) network input i)
          * (forward_output (Logistic ℝ) network input i
            * (1 - forward_output (Logistic ℝ) network input i)))
        * forward_hidden (Logistic ℝ) network input k
      - network.weights_hiddenToOutput.get k i = _
  show _ = -network.learning_rate
    * (-(target i - forward_output (Logistic ℝ) network input i)
      * (forward_output (Logistic ℝ) network input i
        * (1 - forward_output (Logistic ℝ) network input i)
        * forward_hidden (Logistic ℝ) network input k))
  ring

/-- The loss as a function of one input-to-hidden weight. -/
theorem loss_with_inputToHidden
    (network : FeedForward_Network ℝ input_size hidden_size output_size)
    (input : StdArray ℝ input_size) (target : StdArray ℝ output_size)
    (k : Fin input_size) (i : Fin hidden_size) (w : ℝ) :
    loss (Logistic ℝ) (Squared_Error ℝ) (with_inputToHidden network k i w) input target
      = ∑ j, (Squared_Error ℝ).error (target j) ((Logistic ℝ).activation
          (∑ h, (Logistic ℝ).activation
              (if h = i then
                ∑ m, input m * (if m = k then w else network.weights_inputToHidden.get m i)
              else
                ∑ m, input m * network.weights_inputToHidden.get m h)
            * network.weights_hiddenToOutput.get h j)) := by
  unfold loss
  rw [total_error_eq_sum]
  refine Finset.sum_congr rfl fun j _ => ?_
  have hhid : ∀ h : Fin hidden_size,
      weighted_sum input_size input
        (fun m => (⟨Function.update network.weights_inputToHidden.data (Array2D.slot k i) w⟩ :
          Array2D ℝ input_size hidden_size).get m h)
      = if h = i then
          ∑ m, input m * (if m = k then w else network.weights_inputToHidden.get m i)
        else
          ∑ m, input m * network.weights_inputToHidden.get m h := by
    intro h
    rw [weighted_sum_eq_sum]
    by_cases hh : h = i
    · subst hh
      rw [if_pos rfl]
      refine Finset.sum_congr rfl fun m _ => ?_
      rw [get_update_slot]
      simp
    · rw [if_neg hh]
      refine Finset.sum_congr rfl fun m _ => ?_
      rw [get_update_slot]
      simp [hh]
  show (Squared_Error ℝ).error (target j) ((Logistic ℝ).activation
    (weighted_sum hidden_size
      (fun h => (Logistic ℝ).activation (weighted_sum input_size input
        (fun m => (⟨Function.update network.weights_inputToHidden.data (Array2D.slot k i) w⟩ :
          Array2D ℝ input_size hidden_size).get m h)))
      (fun h => network.weights_hiddenToOutput.get h j))) = _
  rw [weighted_sum_eq_sum]
  simp only [hhid]

/-- C15: reading the arithmetic over the reals, with Logistic and Squared_Error,
for every weights, input, target, input unit `k` and hidden unit `i`, one
single-example `train` call returns, the total loss
`L = sum over output units j of error(target[j], output[j])` of the two-layer
forward pass is differentiable in `weights_inputToHidden(k,i)` at the
pre-update weights (setting the weight to its pre-update value gives back the
network), and the increment that the call adds to `weights_inputToHidden(k,i)`
equals `-learning_rate` times that partial derivative. -/
theorem input_to_hidden_update_is_gradient_step
    (network : FeedForward_Network ℝ input_size hidden_size output_size)
    (input : StdArray ℝ input_size) (target : StdArray ℝ output_size)
    (k : Fin input_size) (i : Fin hidden_size) :
    ∃ network' gradient,
      train (Logistic ℝ) (Squared_Error ℝ) network input target = some network' ∧
      HasDerivAt
        (fun w : ℝ =>
          loss (Logistic ℝ) (Squared_Error ℝ) (with_inputToHidden network k i w) input target)
        gradient (network.weights_inputToHidden.get k i) ∧
      network'.weights_inputToHidden.get k i - network.weights_inputToHidden.get k i
        = -network.learning_rate * gradient ∧
      with_inputToHidden network k i (network.weights_inputToHidden.get k i) = network := by
  suffices hmain : ∃ network' gradient,
      train (Logistic ℝ) (Squared_Error ℝ) network input target = some network' ∧
      HasDerivAt
        (fun w : ℝ =>
          loss (Logistic ℝ) (Squared_Error ℝ) (with_inputToHidden network k i w) input target)
        gradient (network.weights_inputToHidden.get k i) ∧
      network'.weights_inputToHidden.get k i - network.weights_inputToHidden.get k i
        = -network.learning_rate * gradient by
    obtain ⟨network', gradient, h1, h2, h3⟩ := hmain
    exact ⟨network', gradient, h1, h2, h3, with_inputToHidden_self network k i⟩
  -- the pre-activation sum of hidden unit `h` as a function of the weight
  have hu : ∀ h : Fin hidden_size, HasDerivAt
      (fun w : ℝ =>
        if h = i then
          ∑ m, input m * (if m = k then w else network.weights_inputToHidden.get m i)
        else
          ∑ m, input m * network.weights_inputToHidden.get m h)
      (if h = i then input k else 0)
      (network.weights_inputToHidden.get k i) := by
    intro h
    by_cases hh : h = i
    · simp only [if_pos hh]
      exact hasDerivAt_sum_update _ _ k _
    · simp only [if_neg hh]
      exact hasDerivAt_const _ _
  -- at the pre-update weight these sums are those of the forward pass
  have hu0 : ∀ h : Fin hidden_size,
      (if h = i then
          ∑ m, input m * (if m = k then network.weights_inputToHidden.get k i
            else network.weights_inputToHidden.get m i)
        else
          ∑ m, input m * network.weights_inputToHidden.get m h)
        = weighted_sum input_size input (fun m => network.weights_inputToHidden.get m h) := by
    intro h
    rw [weighted_sum_eq_sum]
    by_cases hh : h = i
    · subst hh
      rw [if_pos rfl]
      refine Finset.sum_congr rfl fun m _ => ?_
      by_cases hm : m = k
      · subst hm; simp
      · simp [hm]
    · rw [if_neg hh]
  -- the pre-activation sum of output unit `j` as a function of the weight
  have hs : ∀ j : Fin output_size, HasDerivAt
      (fun w : ℝ => ∑ h, (Logistic ℝ).activation
          (if h = i then
            ∑ m, input m * (if m = k then w else network.weights_inputToHidden.get m i)
          else
            ∑ m, input m * network.weights_inputToHidden.get m h)
        * network.weights_hiddenToOutput.get h j)
      (∑ h, forward_hidden (Logistic ℝ) network input h
          * (1 - forward_hidden (Logistic ℝ) network input h)
          * (if h = i then input k else 0)
        * network.weights_hiddenToOutput.get h j)
      (network.weights_inputToHidden.get k i) := by
    intro j
    have hterm : ∀ h ∈ (Finset.univ : Finset (Fin hidden_size)), HasDerivAt
        (fun w : ℝ => (Logistic ℝ).activation
            (if h = i then
              ∑ m, input m * (if m = k then w else network.weights_inputToHidden.get m i)
            else
              ∑ m, input m * network.weights_inputToHidden.get m h)
          * network.weights_hiddenToOutput.get h j)
        (forward_hidden (Logistic ℝ) network input h
            * (1 - forward_hidden (Logistic ℝ) network input h)
            * (if h = i then input k else 0)
          * network.weights_hiddenToOutput.get h j)
        (network.weights_inputToHidden.get k i) := by
      intro h _
      have hc := (logistic_hasDerivAt _).comp (network.weights_inputToHidden.get k i) (hu h)
      rw [hu0 h] at hc
      exact hc.mul_const _
    have hsum := HasDerivAt.sum hterm
    convert hsum using 1
  have hs0 : ∀ j : Fin output_size,
      (∑ h, (Logistic ℝ).activation
          (if h = i then
            ∑ m, input m * (if m = k then network.weights_inputToHidden.get k i
              else network.weights_inputToHidden.get m i)
          else
            ∑ m, input m * network.weights_inputToHidden.get m h)
        * network.weights_hiddenToOutput.get h j)
      = weighted_sum hidden_size (forward_hidden (Logistic ℝ) network input)
          (fun h => network.weights_hiddenToOutput.get h j) := by
    intro j
    rw [weighted_sum_eq_sum]
    refine Finset.sum_congr rfl fun h _ => ?_
    rw [hu0 h]
    rfl
  have hL := hasDerivAt_loss_of_sums target _ _ _ hs
  have hfun : (fun w : ℝ =>
      loss (Logistic ℝ) (Squared_Error ℝ) (with_inputToHidden network k i w) input target)
      = fun w : ℝ => ∑ j, (Squared_Error ℝ).error (target j) ((Logistic ℝ).activation
          (∑ h, (Logistic ℝ).activation
              (if h = i then
                ∑ m, input m * (if m = k then w else network.weights_inputToHidden.get m i)
              else
                ∑ m, input m * network.weights_inputToHidden.get m h)
            * network.weights_hiddenToOutput.get h j)) := by
    funext w
    exact loss_with_inputToHidden network input target k i w
  rw [← hfun] at hL
  refine ⟨_, _, train_eq (Logistic ℝ) (Squared_Error ℝ) network input target, hL, ?_⟩
  simp only [hs0]
  show (updated_weights network.weights_inputToHidden _).get k i - _ = _
  rw [updated_weights_get]
  simp only [mul_ite, mul_zero, ite_mul, zero_mul, Finset.sum_ite_eq', Finset.mem_univ, if_true]
  show network.weights_inputToHidden.get k i
      + network.learning_rate
        * (weighted_sum output_size
            (fun j => (target j - forward_output (Logistic ℝ) network input j)
              * (forward_output (Logistic ℝ) network input j
                * (1 - forward_output (Logistic ℝ) network input j)))
            (fun j => network.weights_hiddenToOutput.get i j)
          * (forward_hidden (Logistic ℝ) network input i
            * (1 - forward_hidden (Logistic ℝ) network input i)))
        * input k
      - network.weights_inputToHidden.get k i
    = -network.learning_rate
      * ∑ j, -(target j - forward_output (Logistic ℝ) network input j)
        * (forward_output (Logistic ℝ) network input j
          * (1 - forward_output (Logistic ℝ) network input j)
          * (forward_hidden (Logistic ℝ) network input i
            * (1 - forward_hidden (Logistic ℝ) network input i)
            * input k * network.weights_hiddenToOutput.get i j))
  rw [weighted_sum_eq_sum, Finset.mul_sum, add_sub_cancel_left, Finset.sum_mul, Finset.mul_sum,
    Finset.sum_mul]
  refine Finset.sum_congr rfl fun j _ => ?_
  ring

end gradient

/-! ## Repeated training on one example -/

section repeated_training

variable {input_size hidden_size output_size : Nat}

end repeated_training

section zero_input_training

variable {input_size hidden_size : Nat}

end zero_input_training

section saturated_start

variable {input_size hidden_size : Nat}

end saturated_start

section symmetric_training

end symmetric_training

end Net
